import Mathlib

/-!
Shallow embedding of the CAM2Camera query engine (`CAM2API/views.py`).

Conventions of the embedding:
* Python floats are modelled as rationals (`ℚ`); camera records as a structure.
* The Django queryset is modelled as a `List Camera` in database order; each
  `.filter(...)` call is `List.filter`.
* Query parameters are an association list `List (String × String)` in the
  dictionary's iteration order, with at most one value per key.
* Fallible Python code (uncaught `ValueError` from `float()` / `int()` /
  `strptime`, `TypeError` from comparing unorderable objects) is modelled with
  `Except PyErr`.
* The distance evaluator (`GEOSGeometry.distance`, an external library) is a
  parameter `dist : Loc → Loc → ℚ`; theorems hold for every evaluator, and a
  sample evaluator `taxiDist` instantiates them on concrete inputs.
-/

set_option maxHeartbeats 1000000

namespace CAM2API

/-- A geographic point: the coordinate pair carried by a `GEOSGeometry` point. -/
abbrev Loc := ℚ × ℚ

/-- The Camera record (fields exposed by the model and used by `views.py`). -/
structure Camera where
  camera_id : Int
  city : String
  state : String
  country : String
  camera_type : String
  source : String
  lat : ℚ
  lng : ℚ
  framerate : ℚ
  resolution_w : Int
  resolution_h : Int
  is_video : Bool
  outdoors : Bool
  traffic : Bool
  inactive : Bool
  date_added : Nat
  last_updated : Nat
deriving DecidableEq

/-- The stored point `camera.lat_lng`. -/
def Camera.lat_lng (c : Camera) : Loc := (c.lat, c.lng)

/-- Failure modes of the embedded code.  Python raises `ValueError` from
`float()` / `int()` (constructor `invalidFilterValue` when raised inside
`filter_cameras`, `invalidQueryValue` when raised in `CameraQuery.get`) and
from `datetime.strptime` (`invalidDateFormat`); it raises `TypeError` when two
`Camera` objects are compared inside the priority queue.  The constructor
names record the raise site, following the spec's error taxonomy. -/
inductive PyErr where
  | invalidFilterValue
  | invalidDateFormat
  | invalidQueryValue
  | typeError
deriving DecidableEq

/-- Value of a digit string (helper for the literal parsers). -/
def digitsVal (l : List Char) : Nat :=
  l.foldl (fun a c => a * 10 + (c.toNat - 48)) 0

/-- Parse a nonempty all-digit string. -/
def parseDigits (l : List Char) : Option Nat :=
  if l.isEmpty then none
  else if l.all Char.isDigit then some (digitsVal l) else none

/-- Model of Python `float(s)` on plain decimal literals: an optional sign,
then digits with at most one decimal point (`"1"`, `"1.5"`, `"1."`, `".5"`).
Scientific notation and the special values are outside the model; every
string the model rejects makes `float()` raise `ValueError`. -/
def pyFloat (s : String) : Option ℚ :=
  let l := s.toList
  let sgn : ℚ := match l with
    | '-' :: _ => -1
    | _ => 1
  let l2 : List Char := match l with
    | '-' :: r => r
    | '+' :: r => r
    | r => r
  let ip := l2.takeWhile (fun c => c ≠ '.')
  match l2.dropWhile (fun c => c ≠ '.') with
  | [] =>
    match parseDigits ip with
    | some n => some (sgn * n)
    | none => none
  | _ :: frac =>
    if (ip.isEmpty && frac.isEmpty) || !ip.all Char.isDigit || !frac.all Char.isDigit then
      none
    else
      some (sgn * ((digitsVal ip : ℚ) + (digitsVal frac : ℚ) / (10 ^ frac.length)))

/-- Model of Python `int(s)`: an optional sign followed by digits. -/
def pyInt (s : String) : Option Int :=
  let l := s.toList
  let sgn : Int := match l with
    | '-' :: _ => -1
    | _ => 1
  let l2 : List Char := match l with
    | '-' :: r => r
    | '+' :: r => r
    | r => r
  match parseDigits l2 with
  | some n => some (sgn * n)
  | none => none

/-- Days per month (Gregorian), used by the `strptime` model. -/
def daysInMonth (m y : Nat) : Nat :=
  if m = 2 then (if y % 4 = 0 ∧ (y % 100 ≠ 0 ∨ y % 400 = 0) then 29 else 28)
  else if m = 4 ∨ m = 6 ∨ m = 9 ∨ m = 11 then 30 else 31

/-- Model of `datetime.strptime(s, "%m/%d/%Y")`: three `/`-separated digit
fields forming a valid calendar date.  The resulting datetime is encoded as
the order-preserving key `y * 10000 + m * 100 + d`; camera timestamps
(`date_added`, `last_updated`) are stored in the same encoding. -/
def pyStrptimeMDY (s : String) : Option Nat :=
  match s.splitOn "/" with
  | [ms, ds, ys] =>
    match parseDigits ms.toList, parseDigits ds.toList, parseDigits ys.toList with
    | some m, some d, some y =>
      if 1 ≤ m ∧ m ≤ 12 ∧ 1 ≤ d ∧ d ≤ daysInMonth m y then
        some (y * 10000 + m * 100 + d)
      else none
    | _, _, _ => none
  | _ => none

/-- The truthy tokens accepted by the boolean flag filters (`views.py:225`). -/
def trueTokens : List String := ["True", "true", "t"]

/-- The falsy tokens accepted by the boolean flag filters (`views.py:227`). -/
def falseTokens : List String := ["False", "false", "f"]

/-- One iteration of the `for param in query_params` loop of `filter_cameras`
(`views.py:181-259`): the `elif` chain on the parameter name, narrowing the
current queryset or raising. -/
def filterStep (cameras : List Camera) (param value : String) : Except PyErr (List Camera) :=
  if param = "city" then .ok (cameras.filter (fun c => decide (c.city = value)))
  else if param = "state" then .ok (cameras.filter (fun c => decide (c.state = value)))
  else if param = "country" then .ok (cameras.filter (fun c => decide (c.country = value)))
  else if param = "camera_type" then .ok (cameras.filter (fun c => decide (c.camera_type = value)))
  else if param = "lat" then
    match pyFloat value with
    | some x => .ok (cameras.filter (fun c => decide (c.lat = x)))
    | none => .error .invalidFilterValue
  else if param = "lat_min" then
    match pyFloat value with
    | some x => .ok (cameras.filter (fun c => decide (x ≤ c.lat)))
    | none => .error .invalidFilterValue
  else if param = "lat_max" then
    match pyFloat value with
    | some x => .ok (cameras.filter (fun c => decide (c.lat ≤ x)))
    | none => .error .invalidFilterValue
  else if param = "lng" then
    match pyFloat value with
    | some x => .ok (cameras.filter (fun c => decide (c.lng = x)))
    | none => .error .invalidFilterValue
  else if param = "lng_min" then
    match pyFloat value with
    | some x => .ok (cameras.filter (fun c => decide (x ≤ c.lng)))
    | none => .error .invalidFilterValue
  else if param = "lng_max" then
    match pyFloat value with
    | some x => .ok (cameras.filter (fun c => decide (c.lng ≤ x)))
    | none => .error .invalidFilterValue
  else if param = "framerate" then
    match pyFloat value with
    | some x => .ok (cameras.filter (fun c => decide (c.framerate = x)))
    | none => .error .invalidFilterValue
  else if param = "framerate_min" then
    match pyFloat value with
    | some x => .ok (cameras.filter (fun c => decide (x ≤ c.framerate)))
    | none => .error .invalidFilterValue
  else if param = "framerate_max" then
    match pyFloat value with
    | some x => .ok (cameras.filter (fun c => decide (c.framerate ≤ x)))
    | none => .error .invalidFilterValue
  else if param = "source" then .ok (cameras.filter (fun c => decide (c.source = value)))
  else if param = "resolution_w" then
    match pyInt value with
    | some x => .ok (cameras.filter (fun c => decide (c.resolution_w = x)))
    | none => .error .invalidFilterValue
  else if param = "resolution_w_min" then
    match pyInt value with
    | some x => .ok (cameras.filter (fun c => decide (x ≤ c.resolution_w)))
    | none => .error .invalidFilterValue
  else if param = "resolution_w_max" then
    match pyInt value with
    | some x => .ok (cameras.filter (fun c => decide (c.resolution_w ≤ x)))
    | none => .error .invalidFilterValue
  else if param = "resolution_h" then
    match pyInt value with
    | some x => .ok (cameras.filter (fun c => decide (c.resolution_h = x)))
    | none => .error .invalidFilterValue
  else if param = "resolution_h_min" then
    match pyInt value with
    | some x => .ok (cameras.filter (fun c => decide (x ≤ c.resolution_h)))
    | none => .error .invalidFilterValue
  else if param = "resolution_h_max" then
    match pyInt value with
    | some x => .ok (cameras.filter (fun c => decide (c.resolution_h ≤ x)))
    | none => .error .invalidFilterValue
  else if param = "id" then
    match pyInt value with
    | some x => .ok (cameras.filter (fun c => decide (c.camera_id = x)))
    | none => .error .invalidFilterValue
  else if param = "video" then
    if value ∈ trueTokens then .ok (cameras.filter (fun c => c.is_video))
    else if value ∈ falseTokens then .ok (cameras.filter (fun c => !c.is_video))
    else .ok cameras
  else if param = "outdoors" then
    if value ∈ trueTokens then .ok (cameras.filter (fun c => c.outdoors))
    else if value ∈ falseTokens then .ok (cameras.filter (fun c => !c.outdoors))
    else .ok cameras
  else if param = "traffic" then
    if value ∈ trueTokens then .ok (cameras.filter (fun c => c.traffic))
    else if value ∈ falseTokens then .ok (cameras.filter (fun c => !c.traffic))
    else .ok cameras
  else if param = "inactive" then
    if value ∈ trueTokens then .ok (cameras.filter (fun c => c.inactive))
    else if value ∈ falseTokens then .ok (cameras.filter (fun c => !c.inactive))
    else .ok cameras
  else if param = "added_before" then
    match pyStrptimeMDY value with
    | some limit => .ok (cameras.filter (fun c => decide (c.date_added ≤ limit)))
    | none => .error .invalidDateFormat
  else if param = "added_after" then
    match pyStrptimeMDY value with
    | some limit => .ok (cameras.filter (fun c => decide (limit ≤ c.date_added)))
    | none => .error .invalidDateFormat
  else if param = "updated_before" then
    match pyStrptimeMDY value with
    | some limit => .ok (cameras.filter (fun c => decide (c.last_updated ≤ limit)))
    | none => .error .invalidDateFormat
  else if param = "updated_after" then
    match pyStrptimeMDY value with
    | some limit => .ok (cameras.filter (fun c => decide (limit ≤ c.last_updated)))
    | none => .error .invalidDateFormat
  else .ok cameras

/-- `filter_cameras` (`views.py:178-260`): fold the `elif` chain over the
query parameters, starting from the full collection `db`
(`Camera.objects.all()`). -/
def filter_cameras (db : List Camera) (query_params : List (String × String)) :
    Except PyErr (List Camera) :=
  query_params.foldlM (fun cams p => filterStep cams p.1 p.2) db

/-- Denotation of one recognized filter as a predicate on a camera, following
the spec's reading of the `elif` chain: unrecognized keys and unrecognized
boolean tokens denote the always-true predicate (no narrowing), and a
numeric / date value is constrained only when it parses.  Used to state the
conjunction-of-filters theorems; `filterStep` above is the translation of the
source. -/
def paramHolds (param value : String) (c : Camera) : Bool :=
  if param = "city" then decide (c.city = value)
  else if param = "state" then decide (c.state = value)
  else if param = "country" then decide (c.country = value)
  else if param = "camera_type" then decide (c.camera_type = value)
  else if param = "lat" then
    match pyFloat value with
    | some x => decide (c.lat = x)
    | none => true
  else if param = "lat_min" then
    match pyFloat value with
    | some x => decide (x ≤ c.lat)
    | none => true
  else if param = "lat_max" then
    match pyFloat value with
    | some x => decide (c.lat ≤ x)
    | none => true
  else if param = "lng" then
    match pyFloat value with
    | some x => decide (c.lng = x)
    | none => true
  else if param = "lng_min" then
    match pyFloat value with
    | some x => decide (x ≤ c.lng)
    | none => true
  else if param = "lng_max" then
    match pyFloat value with
    | some x => decide (c.lng ≤ x)
    | none => true
  else if param = "framerate" then
    match pyFloat value with
    | some x => decide (c.framerate = x)
    | none => true
  else if param = "framerate_min" then
    match pyFloat value with
    | some x => decide (x ≤ c.framerate)
    | none => true
  else if param = "framerate_max" then
    match pyFloat value with
    | some x => decide (c.framerate ≤ x)
    | none => true
  else if param = "source" then decide (c.source = value)
  else if param = "resolution_w" then
    match pyInt value with
    | some x => decide (c.resolution_w = x)
    | none => true
  else if param = "resolution_w_min" then
    match pyInt value with
    | some x => decide (x ≤ c.resolution_w)
    | none => true
  else if param = "resolution_w_max" then
    match pyInt value with
    | some x => decide (c.resolution_w ≤ x)
    | none => true
  else if param = "resolution_h" then
    match pyInt value with
    | some x => decide (c.resolution_h = x)
    | none => true
  else if param = "resolution_h_min" then
    match pyInt value with
    | some x => decide (x ≤ c.resolution_h)
    | none => true
  else if param = "resolution_h_max" then
    match pyInt value with
    | some x => decide (c.resolution_h ≤ x)
    | none => true
  else if param = "id" then
    match pyInt value with
    | some x => decide (c.camera_id = x)
    | none => true
  else if param = "video" then
    if value ∈ trueTokens then c.is_video
    else if value ∈ falseTokens then !c.is_video
    else true
  else if param = "outdoors" then
    if value ∈ trueTokens then c.outdoors
    else if value ∈ falseTokens then !c.outdoors
    else true
  else if param = "traffic" then
    if value ∈ trueTokens then c.traffic
    else if value ∈ falseTokens then !c.traffic
    else true
  else if param = "inactive" then
    if value ∈ trueTokens then c.inactive
    else if value ∈ falseTokens then !c.inactive
    else true
  else if param = "added_before" then
    match pyStrptimeMDY value with
    | some limit => decide (c.date_added ≤ limit)
    | none => true
  else if param = "added_after" then
    match pyStrptimeMDY value with
    | some limit => decide (limit ≤ c.date_added)
    | none => true
  else if param = "updated_before" then
    match pyStrptimeMDY value with
    | some limit => decide (c.last_updated ≤ limit)
    | none => true
  else if param = "updated_after" then
    match pyStrptimeMDY value with
    | some limit => decide (limit ≤ c.last_updated)
    | none => true
  else true

/-- Keys whose value is parsed with `float()`. -/
def floatKeys : List String :=
  ["lat", "lat_min", "lat_max", "lng", "lng_min", "lng_max",
   "framerate", "framerate_min", "framerate_max"]

/-- Keys whose value is parsed with `int()`. -/
def intKeys : List String :=
  ["resolution_w", "resolution_w_min", "resolution_w_max",
   "resolution_h", "resolution_h_min", "resolution_h_max", "id"]

/-- Keys whose value is parsed with `strptime`. -/
def dateKeys : List String :=
  ["added_before", "added_after", "updated_before", "updated_after"]

/-- All parameter names recognized by the `elif` chain. -/
def recognizedKeys : List String :=
  ["city", "state", "country", "camera_type", "source",
   "video", "outdoors", "traffic", "inactive"] ++ floatKeys ++ intKeys ++ dateKeys

/-- The spec's exact-match filter family. -/
def exactKeys : List String :=
  ["city", "state", "country", "camera_type", "source", "id"]

/-- A parameter's value parses under the parser its key selects (vacuous for
keys that parse nothing). -/
def paramOk (param value : String) : Prop :=
  (param ∈ floatKeys → (pyFloat value).isSome) ∧
  (param ∈ intKeys → (pyInt value).isSome) ∧
  (param ∈ dateKeys → (pyStrptimeMDY value).isSome)

instance (param value : String) : Decidable (paramOk param value) := by
  unfold paramOk; infer_instance

/-- All parameters of a query parse. -/
def paramsOk (qp : List (String × String)) : Prop :=
  ∀ p ∈ qp, paramOk p.1 p.2

instance (qp : List (String × String)) : Decidable (paramsOk qp) := by
  unfold paramsOk; infer_instance

/-- `CameraQuery.radius_query` (`views.py:156-162`): scan the candidates in
order, appending each camera whose distance to the query point times 100 is
at most the radius. -/
def radius_query (dist : Loc → Loc → ℚ) (cameras : List Camera) (location : Loc)
    (radius : ℚ) : List Camera :=
  cameras.foldl
    (fun result camera =>
      if dist location camera.lat_lng * 100 ≤ radius then result ++ [camera] else result)
    []

/-- The model flag field selected by a boolean filter key (used to state the
flag-filter theorems uniformly over the four keys). -/
def flagField (key : String) (c : Camera) : Bool :=
  if key = "video" then c.is_video
  else if key = "outdoors" then c.outdoors
  else if key = "traffic" then c.traffic
  else c.inactive

/-- A sample distance evaluator (taxicab metric) used to instantiate the
theorems on concrete inputs; the theorems are parametric in the evaluator
because `GEOSGeometry.distance` is an external collaborator. -/
def taxiDist (p q : Loc) : ℚ := |p.1 - q.1| + |p.2 - q.2|

/-- A second sample evaluator (squared Euclidean distance), rational-valued
and convenient for concrete computation. -/
def sqDist (p q : Loc) : ℚ := (p.1 - q.1) ^ 2 + (p.2 - q.2) ^ 2

/-- A sample camera (used in witnesses and counterexamples). -/
def camA : Camera :=
  { camera_id := 1, city := "lafayette", state := "IN", country := "USA",
    camera_type := "ip", source := "srcA", lat := 40, lng := -86, framerate := 1,
    resolution_w := 640, resolution_h := 480, is_video := false, outdoors := true,
    traffic := false, inactive := false, date_added := 20170101, last_updated := 20170202 }

/-- A second sample camera. -/
def camB : Camera :=
  { camera_id := 2, city := "tokyo", state := "", country := "JP",
    camera_type := "non_ip", source := "srcB", lat := 35, lng := 139, framerate := 2,
    resolution_w := 1280, resolution_h := 720, is_video := true, outdoors := false,
    traffic := true, inactive := false, date_added := 20160101, last_updated := 20160202 }

/-- A third sample camera. -/
def camC : Camera :=
  { camera_id := 3, city := "lafayette", state := "IN", country := "USA",
    camera_type := "ip", source := "srcC", lat := 39, lng := -85, framerate := 3,
    resolution_w := 320, resolution_h := 240, is_video := true, outdoors := true,
    traffic := false, inactive := true, date_added := 20150101, last_updated := 20150202 }

/-! ### The priority queue of `count_query`

`count_query` puts `(distance, camera)` tuples on a `queue.PriorityQueue`,
which is CPython's `heapq` binary heap over a growable array.  The heap is
modelled as a `List` (index 0 the root, parent of index `j` at
`(j - 1) / 2`), and `heapq`'s `_siftdown` / `_siftup` are translated
directly.  Comparisons go through a monadic `plt` because comparing two
tuples with equal first components falls through to comparing `Camera`
objects, which raises `TypeError`.  Pure (`...P`) variants with a Boolean
comparison mirror the same algorithms and are related to the monadic
(`...E`) ones when no comparison can raise. -/

/-- Parent index in the binary-heap array layout. -/
def heapPar (j : Nat) : Nat := (j - 1) / 2

/-- CPython `heapq._siftdown(heap, 0, pos)` with `newitem = item`: walk the
ancestor chain from `pos`, moving each parent smaller than `item` down one
slot, and place `item` where the walk stops (pure comparison). -/
def siftdownP {α : Type} (ltb : α → α → Bool) (item : α) (h : List α) (pos : Nat) :
    List α :=
  if h0 : pos = 0 then h.set pos item
  else
    match h[heapPar pos]? with
    | none => h.set pos item
    | some parent =>
      if ltb item parent then siftdownP ltb item (h.set pos parent) (heapPar pos)
      else h.set pos item
termination_by pos
decreasing_by
  simp only [heapPar]
  omega

/-- CPython `heapq._siftup(heap, pos)` with `newitem = item`: move the
smaller child up into the hole all the way to a leaf, then sift `item` back
up from that leaf (pure comparison).  The smaller child is the right one
exactly when `not heap[childpos] < heap[rightpos]`. -/
def siftupP {α : Type} (ltb : α → α → Bool) (item : α) (h : List α) (pos : Nat) :
    List α :=
  if hc1 : 2 * pos + 1 < h.length then
    if hc2 : 2 * pos + 2 < h.length then
      if ltb (h.get ⟨2 * pos + 1, hc1⟩) (h.get ⟨2 * pos + 2, hc2⟩) then
        siftupP ltb item (h.set pos (h.get ⟨2 * pos + 1, hc1⟩)) (2 * pos + 1)
      else
        siftupP ltb item (h.set pos (h.get ⟨2 * pos + 2, hc2⟩)) (2 * pos + 2)
    else
      siftupP ltb item (h.set pos (h.get ⟨2 * pos + 1, hc1⟩)) (2 * pos + 1)
  else siftdownP ltb item h pos
termination_by h.length - pos
decreasing_by
  · simp only [List.length_set]
    omega
  · simp only [List.length_set]
    omega
  · simp only [List.length_set]
    omega

/-- CPython `heapq.heappush`: append, then sift the new item up. -/
def heappushP {α : Type} (ltb : α → α → Bool) (h : List α) (item : α) : List α :=
  siftdownP ltb item (h ++ [item]) h.length

/-- CPython `heapq.heappop`: pop the last element; if the heap is still
nonempty, the root is returned and the last element is sifted from the root;
`none` on an empty heap (the caller guards with `empty()`). -/
def heappopP {α : Type} (ltb : α → α → Bool) (h : List α) : Option (α × List α) :=
  match h.getLast? with
  | none => none
  | some lastelt =>
    match h.dropLast with
    | [] => some (lastelt, [])
    | r0 :: rest => some (r0, siftupP ltb lastelt (r0 :: rest) 0)

/-- The `for i in range(count)` loop of `count_query`: pop up to `n` items,
breaking when the queue is empty. -/
def drainP {α : Type} (ltb : α → α → Bool) : Nat → List α → List α
  | 0, _ => []
  | n + 1, h =>
    match heappopP ltb h with
    | none => []
    | some (x, h') => x :: drainP ltb n h'

/-- `heapq._siftdown` with Python's raising comparison. -/
def siftdownE {α : Type} (plt : α → α → Except PyErr Bool) (item : α) (h : List α)
    (pos : Nat) : Except PyErr (List α) :=
  if h0 : pos = 0 then .ok (h.set pos item)
  else
    match h[heapPar pos]? with
    | none => .ok (h.set pos item)
    | some parent =>
      match plt item parent with
      | .error e => .error e
      | .ok true => siftdownE plt item (h.set pos parent) (heapPar pos)
      | .ok false => .ok (h.set pos item)
termination_by pos
decreasing_by
  simp only [heapPar]
  omega

/-- `heapq._siftup` with Python's raising comparison. -/
def siftupE {α : Type} (plt : α → α → Except PyErr Bool) (item : α) (h : List α)
    (pos : Nat) : Except PyErr (List α) :=
  if hc1 : 2 * pos + 1 < h.length then
    if hc2 : 2 * pos + 2 < h.length then
      match plt (h.get ⟨2 * pos + 1, hc1⟩) (h.get ⟨2 * pos + 2, hc2⟩) with
      | .error e => .error e
      | .ok true => siftupE plt item (h.set pos (h.get ⟨2 * pos + 1, hc1⟩)) (2 * pos + 1)
      | .ok false => siftupE plt item (h.set pos (h.get ⟨2 * pos + 2, hc2⟩)) (2 * pos + 2)
    else
      siftupE plt item (h.set pos (h.get ⟨2 * pos + 1, hc1⟩)) (2 * pos + 1)
  else siftdownE plt item h pos
termination_by h.length - pos
decreasing_by
  · simp only [List.length_set]
    omega
  · simp only [List.length_set]
    omega
  · simp only [List.length_set]
    omega

/-- `PriorityQueue.put` = `heapq.heappush` with Python's raising
comparison. -/
def heappushE {α : Type} (plt : α → α → Except PyErr Bool) (h : List α) (item : α) :
    Except PyErr (List α) :=
  siftdownE plt item (h ++ [item]) h.length

/-- `PriorityQueue.get` = `heapq.heappop` with Python's raising
comparison. -/
def heappopE {α : Type} (plt : α → α → Except PyErr Bool) (h : List α) :
    Except PyErr (Option (α × List α)) :=
  match h.getLast? with
  | none => .ok none
  | some lastelt =>
    match h.dropLast with
    | [] => .ok (some (lastelt, []))
    | r0 :: rest =>
      match siftupE plt lastelt (r0 :: rest) 0 with
      | .error e => .error e
      | .ok h' => .ok (some (r0, h'))

/-- The pop loop of `count_query` with Python's raising comparison. -/
def drainE {α : Type} (plt : α → α → Except PyErr Bool) :
    Nat → List α → Except PyErr (List α)
  | 0, _ => .ok []
  | n + 1, h =>
    match heappopE plt h with
    | .error e => .error e
    | .ok none => .ok []
    | .ok (some (x, h')) =>
      match drainE plt n h' with
      | .error e => .error e
      | .ok rest => .ok (x :: rest)

/-- An entry of the priority queue: the `(distance, camera)` tuple. -/
abbrev Entry := ℚ × Camera

/-- Python's `<` on `(distance, camera)` tuples: tuple comparison compares
the distances first; on equal distances it falls through to `camera1 <
camera2`, and Django `Model` defines no ordering, so distinct cameras at
equal distance raise `TypeError`; an entry compared with itself finds no
unequal component and is simply not-less. -/
def entryLT (a b : Entry) : Except PyErr Bool :=
  if a.1 ≠ b.1 then .ok (decide (a.1 < b.1))
  else if a.2 ≠ b.2 then .error .typeError
  else .ok false

/-- The distance key order on entries (what the tuple comparison computes
whenever it does not raise). -/
def keyLT (a b : Entry) : Bool := decide (a.1 < b.1)

/-- `CameraQuery.count_query` (`views.py:164-176`): put every candidate's
`(distance, camera)` tuple on a fresh `PriorityQueue`, then `get` once per
`range(count)` iteration (none for a negative count), stopping early when
the queue is empty, collecting the cameras. -/
def count_query (dist : Loc → Loc → ℚ) (cameras : List Camera) (location : Loc)
    (count : Int) : Except PyErr (List Camera) :=
  match cameras.foldlM (fun h c => heappushE entryLT h (dist location c.lat_lng, c)) [] with
  | .error e => .error e
  | .ok heap =>
    match drainE entryLT count.toNat heap with
    | .error e => .error e
    | .ok entries => .ok (entries.map Prod.snd)

/-- `CameraQuery.get` (`views.py:143-154`): apply the filters, then dispatch
on `query_type`: exactly the string `"radius"` selects radius mode with
`float(value)`; every other string selects count mode with `int(value)`. -/
def cameraQuery_get (dist : Loc → Loc → ℚ) (db : List Camera)
    (query_params : List (String × String)) (location : Loc)
    (query_type value : String) : Except PyErr (List Camera) :=
  match filter_cameras db query_params with
  | .error e => .error e
  | .ok filtered =>
    if query_type = "radius" then
      match pyFloat value with
      | some r => .ok (radius_query dist filtered location r)
      | none => .error .invalidQueryValue
    else
      match pyInt value with
      | some n => count_query dist filtered location n
      | none => .error .invalidQueryValue

/-- Sort the candidates by distance to the query point (ascending): the
reference order for the count-query theorems. -/
def sortByDist (dist : Loc → Loc → ℚ) (location : Loc) (cameras : List Camera) :
    List Camera :=
  cameras.insertionSort (fun a b => dist location a.lat_lng ≤ dist location b.lat_lng)


/-- The min-heap invariant of the array layout: no entry is less than its
parent. -/
def heapProp {α : Type} (ltb : α → α → Bool) (h : List α) : Prop :=
  ∀ j x p, 0 < j → h[j]? = some x → h[heapPar j]? = some p → ltb x p = false

/-- The heap invariant away from the hole `pos` (the slot about to be
overwritten during a sift). -/
def heapPropExcept {α : Type} (ltb : α → α → Bool) (pos : Nat) (h : List α) : Prop :=
  ∀ j x p, 0 < j → j ≠ pos → h[j]? = some x → h[heapPar j]? = some p → ltb x p = false

/-- On the elements of `S`, the raising comparison `plt` agrees with the
Boolean comparison `ltb` (no comparison of elements of `S` raises). -/
def lawfulOn {α : Type} (plt : α → α → Except PyErr Bool) (ltb : α → α → Bool)
    (S : List α) : Prop :=
  ∀ a b, a ∈ S → b ∈ S → plt a b = .ok (ltb a b)

/-- Ascending order by the key of an entry: `a` may precede `b` when `b` is
not below `a`. -/
def keyLE (a b : ℚ × Camera) : Prop := keyLT b a = false

/-- Two cameras at the same point with distinct ids (used for the tie
counterexamples). -/
def camD : Camera :=
  { camera_id := 6, city := "x", state := "x", country := "x",
    camera_type := "ip", source := "d", lat := 1, lng := 1, framerate := 1,
    resolution_w := 1, resolution_h := 1, is_video := false, outdoors := false,
    traffic := false, inactive := false, date_added := 1, last_updated := 1 }

/-- See `camD`. -/
def camE : Camera :=
  { camera_id := 7, city := "y", state := "y", country := "y",
    camera_type := "ip", source := "e", lat := 1, lng := 1, framerate := 1,
    resolution_w := 1, resolution_h := 1, is_video := true, outdoors := false,
    traffic := false, inactive := false, date_added := 1, last_updated := 1 }

/-- A second tied pair at another point. -/
def camF : Camera :=
  { camera_id := 8, city := "z", state := "z", country := "z",
    camera_type := "ip", source := "f", lat := 3, lng := 3, framerate := 1,
    resolution_w := 1, resolution_h := 1, is_video := false, outdoors := true,
    traffic := false, inactive := false, date_added := 1, last_updated := 1 }

/-- See `camF`. -/
def camG : Camera :=
  { camera_id := 9, city := "w", state := "w", country := "w",
    camera_type := "ip", source := "g", lat := 3, lng := 3, framerate := 1,
    resolution_w := 1, resolution_h := 1, is_video := false, outdoors := false,
    traffic := true, inactive := false, date_added := 1, last_updated := 1 }

/-! ### Theorems about the filter predicate engine -/

/-- Unfolding one parameter of the fold in `filter_cameras`. -/
theorem filter_cameras_cons (db : List Camera) (p : String × String)
    (qp : List (String × String)) :
    filter_cameras db (p :: qp) =
      (filterStep db p.1 p.2).bind (fun r => filter_cameras r qp) := rfl

/-- A single-parameter query is exactly one step of the chain. -/
theorem filter_cameras_singleton (db : List Camera) (k v : String) :
    filter_cameras db [(k, v)] = filterStep db k v := by
  rw [filter_cameras_cons]
  cases filterStep db k v <;> rfl

/-- A key outside the `elif` chain leaves the queryset unchanged. -/
theorem filterStep_unrecognized (cams : List Camera) (k v : String)
    (hk : k ∉ recognizedKeys) : filterStep cams k v = .ok cams := by
  simp only [recognizedKeys, floatKeys, intKeys, dateKeys, List.mem_append, List.mem_cons,
    List.mem_singleton, List.not_mem_nil, not_or, or_false, and_assoc] at hk
  obtain ⟨hcity, hstate, hcountry, hcamt, hsource, hvid, hout, htraf, hinact,
    hlat, hlatmin, hlatmax, hlng, hlngmin, hlngmax, hfr, hfrmin, hfrmax,
    hrw, hrwmin, hrwmax, hrh, hrhmin, hrhmax, hid, hab, haa, hub, hua⟩ := hk
  unfold filterStep
  rw [if_neg hcity, if_neg hstate, if_neg hcountry, if_neg hcamt,
    if_neg hlat, if_neg hlatmin, if_neg hlatmax, if_neg hlng, if_neg hlngmin, if_neg hlngmax,
    if_neg hfr, if_neg hfrmin, if_neg hfrmax, if_neg hsource,
    if_neg hrw, if_neg hrwmin, if_neg hrwmax, if_neg hrh, if_neg hrhmin, if_neg hrhmax,
    if_neg hid, if_neg hvid, if_neg hout, if_neg htraf, if_neg hinact,
    if_neg hab, if_neg haa, if_neg hub, if_neg hua]

/-- An unrecognized key denotes the always-true predicate. -/
theorem paramHolds_unrecognized (c : Camera) (k v : String) (hk : k ∉ recognizedKeys) :
    paramHolds k v c = true := by
  simp only [recognizedKeys, floatKeys, intKeys, dateKeys, List.mem_append, List.mem_cons,
    List.mem_singleton, List.not_mem_nil, not_or, or_false, and_assoc] at hk
  obtain ⟨hcity, hstate, hcountry, hcamt, hsource, hvid, hout, htraf, hinact,
    hlat, hlatmin, hlatmax, hlng, hlngmin, hlngmax, hfr, hfrmin, hfrmax,
    hrw, hrwmin, hrwmax, hrh, hrhmin, hrhmax, hid, hab, haa, hub, hua⟩ := hk
  unfold paramHolds
  rw [if_neg hcity, if_neg hstate, if_neg hcountry, if_neg hcamt,
    if_neg hlat, if_neg hlatmin, if_neg hlatmax, if_neg hlng, if_neg hlngmin, if_neg hlngmax,
    if_neg hfr, if_neg hfrmin, if_neg hfrmax, if_neg hsource,
    if_neg hrw, if_neg hrwmin, if_neg hrwmax, if_neg hrh, if_neg hrhmin, if_neg hrhmax,
    if_neg hid, if_neg hvid, if_neg hout, if_neg htraf, if_neg hinact,
    if_neg hab, if_neg haa, if_neg hub, if_neg hua]

/-- A parameter whose value parses narrows the queryset by its predicate. -/
theorem filterStep_ok (cams : List Camera) (p v : String) (h : paramOk p v) :
    filterStep cams p v = .ok (cams.filter (fun c => paramHolds p v c)) := by
  obtain ⟨hf, hi, hd⟩ := h
  by_cases hk : p ∈ recognizedKeys
  · simp only [recognizedKeys, floatKeys, intKeys, dateKeys, List.mem_append, List.mem_cons,
      List.mem_singleton, List.not_mem_nil, not_false_iff, or_false, or_assoc] at hk
    rcases hk with rfl|rfl|rfl|rfl|rfl|rfl|rfl|rfl|rfl|rfl|rfl|rfl|rfl|rfl|rfl|rfl|rfl|rfl|
      rfl|rfl|rfl|rfl|rfl|rfl|rfl|rfl|rfl|rfl|rfl <;>
      first
        | (simp [filterStep, paramHolds]; done)
        | (by_cases h1 : v ∈ trueTokens <;> by_cases h2 : v ∈ falseTokens <;>
            simp [filterStep, paramHolds, h1, h2] <;> done)
        | (rcases hx : pyFloat v with _ | x
           · exact absurd (hf (by decide)) (by simp [hx])
           · simp [filterStep, paramHolds, hx]; done)
        | (rcases hx : pyInt v with _ | x
           · exact absurd (hi (by decide)) (by simp [hx])
           · simp [filterStep, paramHolds, hx]; done)
        | (rcases hx : pyStrptimeMDY v with _ | x
           · exact absurd (hd (by decide)) (by simp [hx])
           · simp [filterStep, paramHolds, hx]; done)
  · rw [filterStep_unrecognized _ _ _ hk]
    congr 1
    exact (List.filter_eq_self.2 fun c _ => paramHolds_unrecognized c _ v hk).symm

/-- When every parameter parses, the engine computes the narrowing fold as a
single filter by the conjunction of all the parameters' predicates. -/
theorem filter_cameras_ok (db : List Camera) (qp : List (String × String))
    (h : paramsOk qp) :
    filter_cameras db qp =
      .ok (db.filter (fun c => qp.all (fun p => paramHolds p.1 p.2 c))) := by
  induction qp generalizing db with
  | nil =>
    show Except.ok db = _
    simp [List.all_nil, List.filter_true]
  | cons p qp ih =>
    rw [filter_cameras_cons, filterStep_ok _ _ _ (h p (List.mem_cons_self p qp))]
    show filter_cameras _ qp = _
    rw [ih _ (fun q hq => h q (List.mem_cons_of_mem _ hq)), List.filter_filter]
    congr 1
    apply List.filter_congr
    intro c _
    simp [List.all_cons, Bool.and_comm]

/-- Removing an unrecognized parameter from anywhere in the query changes
nothing. -/
theorem filter_cameras_unrecognized (db : List Camera) (k v : String)
    (qp₁ qp₂ : List (String × String)) (hk : k ∉ recognizedKeys) :
    filter_cameras db (qp₁ ++ (k, v) :: qp₂) = filter_cameras db (qp₁ ++ qp₂) := by
  induction qp₁ generalizing db with
  | nil =>
    rw [List.nil_append, List.nil_append, filter_cameras_cons,
      filterStep_unrecognized _ _ _ hk]
    rfl
  | cons p qp₁ ih =>
    rw [List.cons_append, List.cons_append, filter_cameras_cons, filter_cameras_cons]
    cases hs : filterStep db p.1 p.2 with
    | ok r => exact ih r
    | error e => rfl

/-- An exact-match key that fails `paramOk` (necessarily `id` with an
unparsable integer) makes the step raise from any start set. -/
theorem exact_fail_step (k v : String) (hk : k ∈ exactKeys) (hbad : ¬ paramOk k v) :
    ∀ cams, filterStep cams k v = .error .invalidFilterValue := by
  intro cams
  simp only [exactKeys, List.mem_cons, List.mem_singleton, List.not_mem_nil, or_false] at hk
  rcases hk with rfl|rfl|rfl|rfl|rfl|rfl <;>
    first
      | exact absurd
          ⟨fun h => absurd h (by decide), fun h => absurd h (by decide),
           fun h => absurd h (by decide)⟩ hbad
      | (rcases hx : pyInt v with _ | x
         · simp [filterStep, hx]; done
         · exact absurd
             ⟨fun h => absurd h (by decide), fun _ => by simp [hx],
              fun h => absurd h (by decide)⟩ hbad)

/-- For exact-match queries whose values do not all parse, the whole query
fails with `invalidFilterValue`, from any start set. -/
theorem filter_cameras_exact_fail (qp : List (String × String))
    (hex : ∀ p ∈ qp, p.1 ∈ exactKeys) (hbad : ¬ paramsOk qp) :
    ∀ db, filter_cameras db qp = .error .invalidFilterValue := by
  induction qp with
  | nil => exact absurd (fun p hp => absurd hp (List.not_mem_nil p)) hbad
  | cons p qp ih =>
    intro db
    rw [filter_cameras_cons]
    by_cases hp : paramOk p.1 p.2
    · rw [filterStep_ok _ _ _ hp]
      show filter_cameras _ qp = _
      apply ih (fun q hq => hex q (List.mem_cons_of_mem _ hq))
      intro hqp
      exact hbad fun q hq => by
        rcases List.mem_cons.1 hq with rfl | hq'
        exacts [hp, hqp q hq']
    · rw [exact_fail_step p.1 p.2 (hex p (List.mem_cons_self _ _)) hp db]
      rfl

/-- `List.all` only depends on the multiset of elements. -/
theorem perm_all {α : Type} (f : α → Bool) {l₁ l₂ : List α} (h : l₁.Perm l₂) :
    l₁.all f = l₂.all f := by
  induction h with
  | nil => rfl
  | cons a _ ih => simp [List.all_cons, ih]
  | swap a b l => simp [List.all_cons, ← Bool.and_assoc, Bool.and_comm (f b) (f a)]
  | trans _ _ ih₁ ih₂ => rw [ih₁, ih₂]
/-- C4 (amended): on a query whose recognized values all parse, the filter
engine returns exactly the cameras satisfying the conjunction (logical AND)
of all recognized filters; an unrecognized key anywhere in the query leaves
the result unchanged with no error; the empty query returns the full
collection.  (The amendment restricts the first part to parsable values: a
recognized numeric key with an unparsable value raises instead, see
`c4_filter_engine_cex` and C6.) -/
theorem c4_filter_engine_conjunction (db : List Camera) (qp : List (String × String)) :
    (paramsOk qp →
      filter_cameras db qp =
        .ok (db.filter (fun c => qp.all (fun p => paramHolds p.1 p.2 c)))) ∧
    (∀ k v qp₁ qp₂, k ∉ recognizedKeys →
      filter_cameras db (qp₁ ++ (k, v) :: qp₂) = filter_cameras db (qp₁ ++ qp₂)) ∧
    filter_cameras db [] = .ok db :=
  ⟨fun h => filter_cameras_ok db qp h,
   fun k v qp₁ qp₂ hk => filter_cameras_unrecognized db k v qp₁ qp₂ hk,
   rfl⟩

/-- Counterexample to C4 as stated: with the recognized key `lat` mapped to
the unparsable value `"abc"` the engine does not return any subset of the
collection — it fails (the uncaught `ValueError` from `float("abc")`). -/
theorem c4_filter_engine_cex :
    filter_cameras [camA] [("lat", "abc")] = .error .invalidFilterValue ∧
    (filter_cameras [camA] [("lat", "abc")]).toOption = none := by
  constructor <;> rfl

/-- Witness for C4: a parsable query (`city` and `video` filters composed),
an ignored unrecognized key `xyz`, and the empty query. -/
theorem c4_filter_engine_conjunction_w :
    paramsOk [("city", "lafayette"), ("video", "t")] ∧
    filter_cameras [camA, camB, camC] [("city", "lafayette"), ("video", "t")] =
      .ok ([camA, camB, camC].filter
        (fun c => [("city", "lafayette"), ("video", "t")].all
          (fun p => paramHolds p.1 p.2 c))) ∧
    filter_cameras [camA, camB, camC]
        ([("xyz", "1")] ++ [("city", "lafayette"), ("video", "t")]) =
      filter_cameras [camA, camB, camC] [("city", "lafayette"), ("video", "t")] ∧
    filter_cameras [camA, camB, camC] ([] : List (String × String)) =
      .ok [camA, camB, camC] :=
  ⟨by decide,
   (c4_filter_engine_conjunction [camA, camB, camC] [("city", "lafayette"), ("video", "t")]).1
     (by decide),
   (c4_filter_engine_conjunction [camA, camB, camC] [("city", "lafayette"), ("video", "t")]).2.1
     "xyz" "1" [] [("city", "lafayette"), ("video", "t")] (by decide),
   (c4_filter_engine_conjunction [camA, camB, camC] [("city", "lafayette"), ("video", "t")]).2.2⟩

/-- C5 (amended): each boolean flag key applies flag=True exactly for the
tokens `True`, `true`, `t`, applies flag=False exactly for `False`, `false`,
`f`, and leaves the collection unchanged for every other token (no error).
The token match is case-sensitive apart from the two listed capitalizations:
`TRUE`, `T`, `FALSE`, `F` and other case variants are silently ignored (see
`c5_flag_token_cex`). -/
theorem c5_flag_token_filters (db : List Camera) (key v : String)
    (hk : key ∈ ["video", "outdoors", "traffic", "inactive"]) :
    (v ∈ trueTokens →
      filter_cameras db [(key, v)] = .ok (db.filter (fun c => flagField key c))) ∧
    (v ∈ falseTokens →
      filter_cameras db [(key, v)] = .ok (db.filter (fun c => !flagField key c))) ∧
    (v ∉ trueTokens → v ∉ falseTokens → filter_cameras db [(key, v)] = .ok db) := by
  simp only [List.mem_cons, List.mem_singleton, List.not_mem_nil, or_false] at hk
  rcases hk with rfl | rfl | rfl | rfl <;>
    refine ⟨fun h1 => ?_, fun h1 => ?_, fun h1 h2 => ?_⟩ <;>
    rw [filter_cameras_singleton] <;>
    first
      | (simp only [trueTokens, falseTokens, List.mem_cons, List.mem_singleton,
          List.not_mem_nil, or_false] at h1
         rcases h1 with rfl | rfl | rfl <;>
           (simp [filterStep, flagField, trueTokens, falseTokens]; done))
      | (simp [filterStep, flagField, h1, h2]; done)

/-- Counterexample to C5 as stated: `T` is a case-insensitive spelling of the
truthy token `t`, but the engine ignores it — the video filter is not
applied (`camA` has `is_video = false` yet survives). -/
theorem c5_flag_token_cex :
    filter_cameras [camA] [("video", "T")] = .ok [camA] ∧
    List.filter (fun c => c.is_video) [camA] = [] := by
  constructor <;> rfl

/-- Witness for C5: `traffic=t` applies the flag filter; `traffic=x` is
ignored. -/
theorem c5_flag_token_filters_w :
    "traffic" ∈ ["video", "outdoors", "traffic", "inactive"] ∧
    filter_cameras [camA, camB] [("traffic", "t")] =
      .ok ([camA, camB].filter (fun c => flagField "traffic" c)) ∧
    filter_cameras [camA, camB] [("traffic", "x")] = .ok [camA, camB] :=
  ⟨by decide,
   (c5_flag_token_filters [camA, camB] "traffic" "t" (by decide)).1 (by decide),
   (c5_flag_token_filters [camA, camB] "traffic" "x" (by decide)).2.2 (by decide) (by decide)⟩

/-- C6: a range-family key (`lat`, `lng`, `framerate`, `resolution_w`,
`resolution_h`, bare or with `_min`/`_max`, and `id`) whose value does not
parse as the field's numeric type makes filtering fail with the structured
error `invalidFilterValue` (the raised `ValueError`) — an error value, not a
crash of the evaluator. -/
theorem c6_range_parse_failure (db : List Camera) (k v : String)
    (h : (k ∈ floatKeys ∧ pyFloat v = none) ∨ (k ∈ intKeys ∧ pyInt v = none)) :
    filter_cameras db [(k, v)] = .error .invalidFilterValue := by
  rw [filter_cameras_singleton]
  rcases h with ⟨hk, hv⟩ | ⟨hk, hv⟩
  · simp only [floatKeys, List.mem_cons, List.mem_singleton, List.not_mem_nil, or_false] at hk
    rcases hk with rfl|rfl|rfl|rfl|rfl|rfl|rfl|rfl|rfl <;> simp [filterStep, hv]
  · simp only [intKeys, List.mem_cons, List.mem_singleton, List.not_mem_nil, or_false] at hk
    rcases hk with rfl|rfl|rfl|rfl|rfl|rfl|rfl <;> simp [filterStep, hv]

/-- Witness for C6: `framerate=abc` fails with `invalidFilterValue`. -/
theorem c6_range_parse_failure_w :
    (("framerate" ∈ floatKeys ∧ pyFloat "abc" = none) ∨
      ("framerate" ∈ intKeys ∧ pyInt "abc" = none)) ∧
    filter_cameras [camB] [("framerate", "abc")] = .error .invalidFilterValue :=
  ⟨Or.inl ⟨by decide, by decide⟩,
   c6_range_parse_failure [camB] "framerate" "abc" (Or.inl ⟨by decide, by decide⟩)⟩

/-- C9: on a query of recognized exact-match keys, running the engine a
second time over its own output changes nothing (idempotent narrowing), and
the result does not depend on the order in which the parameters are
processed. -/
theorem c9_exact_idempotent_order_independent (db : List Camera)
    (qp : List (String × String)) (hex : ∀ p ∈ qp, p.1 ∈ exactKeys) :
    ((filter_cameras db qp).bind (fun r => filter_cameras r qp) =
      filter_cameras db qp) ∧
    (∀ qp', qp'.Perm qp → filter_cameras db qp' = filter_cameras db qp) := by
  constructor
  · by_cases hok : paramsOk qp
    · rw [filter_cameras_ok _ _ hok]
      show filter_cameras _ qp = _
      rw [filter_cameras_ok _ _ hok, List.filter_filter]
      congr 1
      apply List.filter_congr
      intro c _
      exact Bool.and_self _
    · rw [filter_cameras_exact_fail qp hex hok db]
      rfl
  · intro qp' hperm
    have hex' : ∀ p ∈ qp', p.1 ∈ exactKeys := fun p hp => hex p (hperm.mem_iff.1 hp)
    by_cases hok : paramsOk qp
    · have hok' : paramsOk qp' := fun p hp => hok p (hperm.mem_iff.1 hp)
      rw [filter_cameras_ok _ _ hok, filter_cameras_ok _ _ hok']
      congr 1
      apply List.filter_congr
      intro c _
      exact perm_all _ hperm
    · have hok' : ¬ paramsOk qp' := fun hq => hok fun p hp => hq p (hperm.mem_iff.2 hp)
      rw [filter_cameras_exact_fail qp hex hok db, filter_cameras_exact_fail qp' hex' hok' db]

/-- Witness for C9: a two-parameter exact-match query, re-applied and
permuted. -/
theorem c9_exact_idempotent_order_independent_w :
    ((filter_cameras [camA, camB, camC] [("country", "USA"), ("camera_type", "ip")]).bind
        (fun r => filter_cameras r [("country", "USA"), ("camera_type", "ip")]) =
      filter_cameras [camA, camB, camC] [("country", "USA"), ("camera_type", "ip")]) ∧
    filter_cameras [camA, camB, camC] [("camera_type", "ip"), ("country", "USA")] =
      filter_cameras [camA, camB, camC] [("country", "USA"), ("camera_type", "ip")] :=
  ⟨(c9_exact_idempotent_order_independent [camA, camB, camC]
      [("country", "USA"), ("camera_type", "ip")] (by decide)).1,
   (c9_exact_idempotent_order_independent [camA, camB, camC]
      [("country", "USA"), ("camera_type", "ip")] (by decide)).2
     [("camera_type", "ip"), ("country", "USA")] (by decide)⟩

/-! ### Theorems about the radius query -/

/-- The append-loop of `radius_query` is a filter in arrival order. -/
theorem radius_query_eq_filter (dist : Loc → Loc → ℚ) (cams : List Camera) (loc : Loc)
    (radius : ℚ) :
    radius_query dist cams loc radius =
      cams.filter (fun c => decide (dist loc c.lat_lng * 100 ≤ radius)) := by
  have key : ∀ (l acc : List Camera),
      l.foldl (fun result camera =>
          if dist loc camera.lat_lng * 100 ≤ radius then result ++ [camera] else result) acc
        = acc ++ l.filter (fun c => decide (dist loc c.lat_lng * 100 ≤ radius)) := by
    intro l
    induction l with
    | nil => intro acc; simp
    | cons a l ih =>
      intro acc
      rw [List.foldl_cons, List.filter_cons]
      by_cases hc : dist loc a.lat_lng * 100 ≤ radius
      · rw [if_pos hc, ih]
        simp [hc]
      · rw [if_neg hc, ih]
        simp [hc]
  simpa using key cams []

/-- C1: for any distance evaluator (nonnegative on the candidates, as a
metric is), radius-mode query returns exactly the candidates whose distance
to the query point times 100 is at most the radius, in arrival order (a
filter of the candidate list, not a distance sort); with radius 0 it keeps
exactly the cameras whose distance times 100 equals 0. -/
theorem c1_radius_query_filter (dist : Loc → Loc → ℚ) (cams : List Camera) (loc : Loc)
    (radius : ℚ) (hd : ∀ c ∈ cams, 0 ≤ dist loc c.lat_lng) :
    radius_query dist cams loc radius =
      cams.filter (fun c => decide (dist loc c.lat_lng * 100 ≤ radius)) ∧
    radius_query dist cams loc 0 =
      cams.filter (fun c => decide (dist loc c.lat_lng * 100 = 0)) := by
  refine ⟨radius_query_eq_filter dist cams loc radius, ?_⟩
  rw [radius_query_eq_filter]
  apply List.filter_congr
  intro c hc
  have h0 : 0 ≤ dist loc c.lat_lng * 100 := by
    have := hd c hc
    positivity
  simp only [decide_eq_decide]
  exact ⟨fun hle => le_antisymm hle h0, fun he => he.le⟩

/-- The sample evaluator is a nonnegative distance. -/
theorem taxiDist_nonneg (p q : Loc) : 0 ≤ taxiDist p q := by
  unfold taxiDist
  positivity

/-- Witness for C1: the taxicab evaluator on two concrete cameras, with a
radius that keeps one of them, and radius 0 keeping only the exact query
point. -/
theorem c1_radius_query_filter_w :
    (∀ c ∈ [camA, camC], 0 ≤ taxiDist (40, -86) c.lat_lng) ∧
    radius_query taxiDist [camA, camC] (40, -86) 150 =
      [camA, camC].filter (fun c => decide (taxiDist (40, -86) c.lat_lng * 100 ≤ 150)) ∧
    radius_query taxiDist [camA, camC] (40, -86) 0 =
      [camA, camC].filter (fun c => decide (taxiDist (40, -86) c.lat_lng * 100 = 0)) :=
  ⟨fun c _ => taxiDist_nonneg _ _,
   (c1_radius_query_filter taxiDist [camA, camC] (40, -86) 150
      (fun c _ => taxiDist_nonneg _ _)).1,
   (c1_radius_query_filter taxiDist [camA, camC] (40, -86) 150
      (fun c _ => taxiDist_nonneg _ _)).2⟩

/-! ### Verification of the heapq model: arithmetic, order and content -/

/-- The parent sits strictly above. -/
theorem heapPar_lt {j : Nat} (hj : 0 < j) : heapPar j < j := by
  simp only [heapPar]
  omega

/-- Left child of `i`. -/
theorem heapPar_left (i : Nat) : heapPar (2 * i + 1) = i := by
  simp only [heapPar]
  omega

/-- Right child of `i`. -/
theorem heapPar_right (i : Nat) : heapPar (2 * i + 2) = i := by
  simp only [heapPar]
  omega

/-- A non-root index is one of its parent's two children. -/
theorem heapPar_children {j : Nat} (hj : 0 < j) :
    j = 2 * heapPar j + 1 ∨ j = 2 * heapPar j + 2 := by
  simp only [heapPar]
  omega

section HeapLemmas

variable {α : Type} {ltb : α → α → Bool}

/-- Asymmetry gives irreflexivity. -/
theorem ltb_irrefl (hasymm : ∀ a b, ltb a b = true → ltb b a = false) (a : α) :
    ltb a a = false := by
  cases hb : ltb a a
  · rfl
  · have h2 := hasymm a a hb
    rw [hb] at h2
    exact Bool.noConfusion h2

/-- In a heap, the root is below every entry. -/
theorem heap_root_le
    (hasymm : ∀ a b, ltb a b = true → ltb b a = false)
    (hnegtrans : ∀ a b c, ltb a b = false → ltb b c = false → ltb a c = false)
    {h : List α} (hH : heapProp ltb h) {x0 : α} (h0 : h[0]? = some x0) :
    ∀ (j : Nat) (x : α), h[j]? = some x → ltb x x0 = false := by
  intro j
  induction j using Nat.strong_induction_on with
  | _ j ih =>
    intro x hx
    rcases Nat.eq_zero_or_pos j with rfl | hj
    · rw [h0] at hx
      cases hx
      exact ltb_irrefl hasymm x0
    · obtain ⟨hjl, -⟩ := List.getElem?_eq_some_iff.1 hx
      have hpl : heapPar j < h.length := lt_trans (heapPar_lt hj) hjl
      obtain ⟨p, hp⟩ : ∃ p, h[heapPar j]? = some p := by
        rw [List.getElem?_eq_getElem hpl]
        exact ⟨_, rfl⟩
      exact hnegtrans _ _ _ (hH j x p hj hx hp) (ih (heapPar j) (heapPar_lt hj) p hp)

/-- Replacing a slot exchanges its content, as multisets. -/
theorem set_content : ∀ (h : List α) (i : Nat) (v w : α), h[i]? = some w →
    ((h.set i v : List α) : Multiset α) + {w} = (h : Multiset α) + {v} := by
  intro h
  induction h with
  | nil =>
    intro i v w hw
    simp at hw
  | cons a t ih =>
    intro i v w hw
    cases i with
    | zero =>
      simp only [List.getElem?_cons_zero, Option.some.injEq] at hw
      subst hw
      show ((v :: t : List α) : Multiset α) + {a} = ((a :: t : List α) : Multiset α) + {v}
      simp only [← Multiset.cons_coe, ← Multiset.singleton_add]
      abel
    | succ i =>
      simp only [List.getElem?_cons_succ] at hw
      show ((a :: t.set i v : List α) : Multiset α) + {w} =
        ((a :: t : List α) : Multiset α) + {v}
      simp only [← Multiset.cons_coe, Multiset.cons_add]
      rw [ih i v w hw]

/-- Equal content (up to one slot) gives equal length. -/
theorem length_eq_of_content {l₁ l₂ : List α} {a b : α}
    (h : (l₁ : Multiset α) + {a} = (l₂ : Multiset α) + {b}) : l₁.length = l₂.length := by
  have h2 := congrArg Multiset.card h
  simpa using h2

/-- Sifting up the ancestor chain replaces the hole's content by the new
item, as multisets. -/
theorem siftdownP_content (ltb : α → α → Bool) (item : α) :
    ∀ (pos : Nat) (h : List α) (w : α), h[pos]? = some w →
      ((siftdownP ltb item h pos : List α) : Multiset α) + {w} =
        (h : Multiset α) + {item} := by
  intro pos
  induction pos using Nat.strong_induction_on with
  | _ pos ih =>
    intro h w hw
    unfold siftdownP
    split
    · exact set_content h pos item w hw
    · rename_i h0
      split
      · exact set_content h pos item w hw
      · rename_i parent hpar
        split
        · rename_i hlt
          have hppos : 0 < pos := Nat.pos_of_ne_zero h0
          have hpw : (h.set pos parent)[heapPar pos]? = some parent := by
            rw [List.getElem?_set_ne (heapPar_lt hppos).ne']
            exact hpar
          have hrec := ih (heapPar pos) (heapPar_lt hppos) (h.set pos parent) parent hpw
          have hset := set_content h pos parent w hw
          refine add_right_cancel (b := ({parent} : Multiset α)) ?_
          calc ((siftdownP ltb item (h.set pos parent) (heapPar pos) : List α) : Multiset α)
                + {w} + {parent}
              = (((siftdownP ltb item (h.set pos parent) (heapPar pos) : List α) : Multiset α)
                + {parent}) + {w} := by abel
            _ = (((h.set pos parent : List α) : Multiset α) + {item}) + {w} := by rw [hrec]
            _ = (((h.set pos parent : List α) : Multiset α) + {w}) + {item} := by abel
            _ = ((h : Multiset α) + {parent}) + {item} := by rw [hset]
            _ = (h : Multiset α) + {item} + {parent} := by abel
        · exact set_content h pos item w hw

/-- Sifting down the minimal-child chain replaces the hole's content by the
new item, as multisets. -/
theorem siftupP_content (ltb : α → α → Bool) (item : α) :
    ∀ (n pos : Nat) (h : List α), h.length - pos ≤ n → ∀ w, h[pos]? = some w →
      ((siftupP ltb item h pos : List α) : Multiset α) + {w} =
        (h : Multiset α) + {item} := by
  intro n
  induction n with
  | zero =>
    intro pos h hn w hw
    obtain ⟨hlt, -⟩ := List.getElem?_eq_some_iff.1 hw
    omega
  | succ n ih =>
    intro pos h hn w hw
    obtain ⟨hlt, -⟩ := List.getElem?_eq_some_iff.1 hw
    unfold siftupP
    split
    · rename_i hc1
      have hset1 : ∀ (c : α) (cp : Nat), pos < cp → h[cp]? = some c →
          ((h.set pos c)[cp]? = some c ∧
            ((siftupP ltb item (h.set pos c) cp : List α) : Multiset α) + {w} =
              (h : Multiset α) + {item}) := by
        intro c cp hcp hcp2
        have hr : (h.set pos c)[cp]? = some c := by
          rw [List.getElem?_set_ne hcp.ne]
          exact hcp2
        refine ⟨hr, ?_⟩
        obtain ⟨hcpl, -⟩ := List.getElem?_eq_some_iff.1 hcp2
        have hrec := ih cp (h.set pos c) (by simp [List.length_set]; omega) c hr
        have hset := set_content h pos c w hw
        refine add_right_cancel (b := ({c} : Multiset α)) ?_
        calc ((siftupP ltb item (h.set pos c) cp : List α) : Multiset α) + {w} + {c}
            = (((siftupP ltb item (h.set pos c) cp : List α) : Multiset α) + {c}) + {w} := by
              abel
          _ = (((h.set pos c : List α) : Multiset α) + {item}) + {w} := by rw [hrec]
          _ = (((h.set pos c : List α) : Multiset α) + {w}) + {item} := by rw [add_right_comm]
          _ = ((h : Multiset α) + {c}) + {item} := by rw [hset]
          _ = (h : Multiset α) + {item} + {c} := by abel
      split
      · rename_i hc2
        split
        · exact (hset1 _ _ (by omega) (List.getElem?_eq_getElem hc1)).2
        · exact (hset1 _ _ (by omega) (List.getElem?_eq_getElem hc2)).2
      · exact (hset1 _ _ (by omega) (List.getElem?_eq_getElem hc1)).2
    · exact siftdownP_content ltb item pos h w hw

/-- `heappush` adds the new item, as multisets. -/
theorem heappushP_content (ltb : α → α → Bool) (item : α) (h : List α) :
    ((heappushP ltb h item : List α) : Multiset α) = (h : Multiset α) + {item} := by
  unfold heappushP
  have hw : (h ++ [item])[h.length]? = some item := by
    rw [List.getElem?_append_right (le_refl _)]
    simp
  have hc := siftdownP_content ltb item h.length (h ++ [item]) item hw
  have h2 : ((h ++ [item] : List α) : Multiset α) = (h : Multiset α) + {item} := by
    rw [← Multiset.coe_add]
    rfl
  rw [h2] at hc
  exact add_right_cancel hc

/-- `heappop` returns `none` exactly on the empty heap. -/
theorem heappopP_none (ltb : α → α → Bool) (h : List α) :
    heappopP ltb h = none ↔ h = [] := by
  unfold heappopP
  cases hl : h.getLast? with
  | none => simpa using List.getLast?_eq_none_iff.1 hl
  | some lastelt =>
    have hne : h ≠ [] := by
      intro he
      rw [he] at hl
      exact Option.noConfusion hl
    constructor
    · intro hcontra
      rcases hd : h.dropLast with _ | ⟨r0, rest⟩ <;> rw [hd] at hcontra <;>
        exact Option.noConfusion hcontra
    · intro he
      exact absurd he hne

/-- `heappop` returns the root, and removes exactly one copy of it. -/
theorem heappopP_content (ltb : α → α → Bool) (h : List α) :
    ∀ x h2, heappopP ltb h = some (x, h2) →
      h[0]? = some x ∧ x ::ₘ (h2 : Multiset α) = (h : Multiset α) := by
  intro x h2 hpop
  unfold heappopP at hpop
  cases hl : h.getLast? with
  | none =>
    rw [hl] at hpop
    exact Option.noConfusion hpop
  | some lastelt =>
    rw [hl] at hpop
    obtain ⟨ys, rfl⟩ := List.getLast?_eq_some_iff.1 hl
    rw [List.dropLast_concat] at hpop
    cases ys with
    | nil =>
      simp only [Option.some.injEq, Prod.mk.injEq] at hpop
      obtain ⟨rfl, rfl⟩ := hpop
      exact ⟨rfl, by simp⟩
    | cons r0 rest =>
      simp only [Option.some.injEq, Prod.mk.injEq] at hpop
      obtain ⟨rfl, rfl⟩ := hpop
      refine ⟨by simp, ?_⟩
      have hw : (r0 :: rest)[0]? = some r0 := by simp
      have hc := siftupP_content ltb lastelt (r0 :: rest).length 0 (r0 :: rest)
        (by omega) r0 hw
      rw [← Multiset.coe_add]
      calc r0 ::ₘ ((siftupP ltb lastelt (r0 :: rest) 0 : List α) : Multiset α)
          = ((siftupP ltb lastelt (r0 :: rest) 0 : List α) : Multiset α) + {r0} := by
            rw [← Multiset.singleton_add, add_comm]
        _ = ((r0 :: rest : List α) : Multiset α) + {lastelt} := by rw [hc]
        _ = ((r0 :: rest : List α) : Multiset α) + (([lastelt] : List α) : Multiset α) := by
            rw [Multiset.coe_singleton]

/-- Placing `item` into the hole keeps the heap shape, provided the hole's
children dominate `item` and its parent is below `item`. -/
theorem set_item_heapProp (item : α) {pos : Nat} {h : List α} (hlen : pos < h.length)
    (ha : heapPropExcept ltb pos h)
    (hb : ∀ (j : Nat) (x : α), heapPar j = pos → j ≠ pos → h[j]? = some x →
      ltb x item = false)
    (hstop : ∀ p, 0 < pos → h[heapPar pos]? = some p → ltb item p = false) :
    heapProp ltb (h.set pos item) := by
  intro j x p hj hx hp
  by_cases hjpos : j = pos
  · subst hjpos
    rw [List.getElem?_set_self hlen] at hx
    cases hx
    rw [List.getElem?_set_ne (heapPar_lt hj).ne'] at hp
    exact hstop p hj hp
  · rw [List.getElem?_set_ne (Ne.symm hjpos)] at hx
    by_cases hpj : heapPar j = pos
    · rw [hpj, List.getElem?_set_self hlen] at hp
      cases hp
      exact hb j x hpj hjpos hx
    · rw [List.getElem?_set_ne (Ne.symm hpj)] at hp
      exact ha j x p hj hjpos hx hp

/-- `_siftdown` restores the full heap invariant. -/
theorem siftdownP_heapProp
    (hasymm : ∀ a b, ltb a b = true → ltb b a = false)
    (hnegtrans : ∀ a b c, ltb a b = false → ltb b c = false → ltb a c = false)
    (item : α) :
    ∀ (pos : Nat) (h : List α), pos < h.length →
      heapPropExcept ltb pos h →
      (∀ (j : Nat) (x : α), heapPar j = pos → j ≠ pos → h[j]? = some x →
        ltb x item = false) →
      (∀ (j : Nat) (x p : α), heapPar j = pos → j ≠ pos → 0 < pos → h[j]? = some x →
        h[heapPar pos]? = some p → ltb x p = false) →
      heapProp ltb (siftdownP ltb item h pos) := by
  intro pos
  induction pos using Nat.strong_induction_on with
  | _ pos ih =>
    intro h hlen ha hb hc
    unfold siftdownP
    split
    · rename_i h0
      subst h0
      exact set_item_heapProp item hlen ha hb (fun p hp0 _ => absurd hp0 (by omega))
    · rename_i h0
      have hppos : 0 < pos := Nat.pos_of_ne_zero h0
      have hparlen : heapPar pos < h.length := lt_trans (heapPar_lt hppos) hlen
      split
      · rename_i hnone
        rw [List.getElem?_eq_getElem hparlen] at hnone
        exact Option.noConfusion hnone
      · rename_i parent hpar
        split
        · rename_i hlt
          apply ih (heapPar pos) (heapPar_lt hppos) (h.set pos parent)
          · simpa using hparlen
          · intro j x p hj hjne hx hp
            by_cases hjpos : j = pos
            · subst hjpos
              rw [List.getElem?_set_self hlen] at hx
              cases hx
              rw [List.getElem?_set_ne (heapPar_lt hj).ne'] at hp
              rw [hpar] at hp
              cases hp
              exact ltb_irrefl hasymm parent
            · rw [List.getElem?_set_ne (Ne.symm hjpos)] at hx
              by_cases hpj : heapPar j = pos
              · rw [hpj, List.getElem?_set_self hlen] at hp
                cases hp
                exact hc j x parent hpj hjpos hppos hx hpar
              · rw [List.getElem?_set_ne (Ne.symm hpj)] at hp
                exact ha j x p hj hjpos hx hp
          · intro j x hpj hjne hx
            by_cases hjpos : j = pos
            · subst hjpos
              rw [List.getElem?_set_self hlen] at hx
              cases hx
              exact hasymm item parent hlt
            · rw [List.getElem?_set_ne (Ne.symm hjpos)] at hx
              have hj0 : 0 < j := by
                have hdef : heapPar j = (j - 1) / 2 := rfl
                have hdef2 : heapPar pos = (pos - 1) / 2 := rfl
                omega
              have hxpar := ha j x parent hj0 hjpos hx (by rw [hpj]; exact hpar)
              exact hnegtrans x parent item hxpar (hasymm item parent hlt)
          · intro j x p hpj hjne hp0 hx hp
            have hgplen : heapPar (heapPar pos) ≠ pos := by
              have := heapPar_lt hp0
              have := heapPar_lt hppos
              omega
            rw [List.getElem?_set_ne (Ne.symm hgplen)] at hp
            by_cases hjpos : j = pos
            · subst hjpos
              rw [List.getElem?_set_self hlen] at hx
              cases hx
              exact ha (heapPar j) parent p hp0 (heapPar_lt hppos).ne hpar hp
            · rw [List.getElem?_set_ne (Ne.symm hjpos)] at hx
              have hj0 : 0 < j := by
                have hdef : heapPar j = (j - 1) / 2 := rfl
                omega
              have h1 := ha j x parent hj0 hjpos hx (by rw [hpj]; exact hpar)
              have h2 := ha (heapPar pos) parent p hp0 (heapPar_lt hppos).ne hpar hp
              exact hnegtrans x parent p h1 h2
        · rename_i hlt
          apply set_item_heapProp item hlen ha hb
          intro p hp0 hp
          rw [hpar] at hp
          cases hp
          exact Bool.not_eq_true _ ▸ hlt

/-- `_siftup` restores the full heap invariant: the hole travels down the
minimal-child path to a leaf (keeping a duplicated value along the edge just
shifted) and `_siftdown` then places the new item on that path. -/
theorem siftupP_heapProp
    (hasymm : ∀ a b, ltb a b = true → ltb b a = false)
    (hnegtrans : ∀ a b c, ltb a b = false → ltb b c = false → ltb a c = false)
    (item : α) :
    ∀ (n pos : Nat) (h : List α), h.length - pos ≤ n → pos < h.length →
      heapPropExcept ltb pos h →
      (0 < pos → ∃ v, h[heapPar pos]? = some v ∧ h[pos]? = some v) →
      heapProp ltb (siftupP ltb item h pos) := by
  intro n
  induction n with
  | zero =>
    intro pos h hn hlen ha hd
    omega
  | succ n ih =>
    intro pos h hn hlen ha hd
    unfold siftupP
    split
    · rename_i hc1
      have step : ∀ (c : Nat) (cv : α), c < h.length → pos < c → heapPar c = pos →
          h[c]? = some cv →
          (∀ (s : Nat) (x : α), heapPar s = pos → s ≠ pos → s ≠ c → h[s]? = some x →
            ltb x cv = false) →
          heapProp ltb (siftupP ltb item (h.set pos cv) c) := by
        intro c cv hcl hposc hparc hcv hsib
        apply ih c (h.set pos cv) ?_ ?_ ?_ ?_
        · simp only [List.length_set]
          omega
        · simp only [List.length_set]
          omega
        · intro j x p hj hjne hx hp
          by_cases hjpos : j = pos
          · subst hjpos
            rw [List.getElem?_set_self hlen] at hx
            cases hx
            obtain ⟨v, hv1, hv2⟩ := hd hj
            rw [List.getElem?_set_ne (heapPar_lt hj).ne'] at hp
            rw [hv1] at hp
            cases hp
            exact ha c cv p (by omega) (by omega) hcv (by rw [hparc]; exact hv2)
          · rw [List.getElem?_set_ne (Ne.symm hjpos)] at hx
            by_cases hpj : heapPar j = pos
            · rw [hpj, List.getElem?_set_self hlen] at hp
              cases hp
              exact hsib j x hpj hjpos hjne hx
            · rw [List.getElem?_set_ne (Ne.symm hpj)] at hp
              exact ha j x p hj hjpos hx hp
        · intro hc0
          refine ⟨cv, ?_, ?_⟩
          · rw [hparc, List.getElem?_set_self hlen]
          · rw [List.getElem?_set_ne (by omega : pos ≠ c)]
            exact hcv
      split
      · rename_i hc2
        split
        · rename_i hlr
          apply step (2 * pos + 1) _ hc1 (by omega) (heapPar_left pos)
            (List.getElem?_eq_getElem hc1)
          intro s x hs hsne hsc hx
          have hscase : s = 2 * pos + 1 ∨ s = 2 * pos + 2 := by
            have hdef : heapPar s = (s - 1) / 2 := rfl
            omega
          rcases hscase with rfl | rfl
          · exact absurd rfl hsc
          · rw [List.getElem?_eq_getElem hc2] at hx
            cases hx
            exact hasymm _ _ hlr
        · rename_i hlr
          apply step (2 * pos + 2) _ hc2 (by omega) (heapPar_right pos)
            (List.getElem?_eq_getElem hc2)
          intro s x hs hsne hsc hx
          have hscase : s = 2 * pos + 1 ∨ s = 2 * pos + 2 := by
            have hdef : heapPar s = (s - 1) / 2 := rfl
            omega
          rcases hscase with rfl | rfl
          · rw [List.getElem?_eq_getElem hc1] at hx
            cases hx
            exact Bool.not_eq_true _ ▸ hlr
          · exact absurd rfl hsc
      · rename_i hc2
        apply step (2 * pos + 1) _ hc1 (by omega) (heapPar_left pos)
          (List.getElem?_eq_getElem hc1)
        intro s x hs hsne hsc hx
        obtain ⟨hsl, -⟩ := List.getElem?_eq_some_iff.1 hx
        have hdef : heapPar s = (s - 1) / 2 := rfl
        omega
    · rename_i hc1
      apply siftdownP_heapProp hasymm hnegtrans item pos h hlen ha
      · intro j x hpj hjne hx
        obtain ⟨hjl, -⟩ := List.getElem?_eq_some_iff.1 hx
        have hdef : heapPar j = (j - 1) / 2 := rfl
        omega
      · intro j x p hpj hjne hp0 hx hp
        obtain ⟨hjl, -⟩ := List.getElem?_eq_some_iff.1 hx
        have hdef : heapPar j = (j - 1) / 2 := rfl
        omega

/-- `heappush` keeps the heap invariant. -/
theorem heappushP_heapProp
    (hasymm : ∀ a b, ltb a b = true → ltb b a = false)
    (hnegtrans : ∀ a b c, ltb a b = false → ltb b c = false → ltb a c = false)
    (h : List α) (item : α) (hH : heapProp ltb h) :
    heapProp ltb (heappushP ltb h item) := by
  unfold heappushP
  apply siftdownP_heapProp hasymm hnegtrans item h.length (h ++ [item]) (by simp)
  · intro j x p hj hjne hx hp
    obtain ⟨hjl, -⟩ := List.getElem?_eq_some_iff.1 hx
    rw [List.length_append, List.length_singleton] at hjl
    have hjlen : j < h.length := by omega
    rw [List.getElem?_append_left hjlen] at hx
    rw [List.getElem?_append_left (lt_trans (heapPar_lt hj) hjlen)] at hp
    exact hH j x p hj hx hp
  · intro j x hpj hjne hx
    obtain ⟨hjl, -⟩ := List.getElem?_eq_some_iff.1 hx
    rw [List.length_append, List.length_singleton] at hjl
    have hdef : heapPar j = (j - 1) / 2 := rfl
    omega
  · intro j x p hpj hjne hp0 hx hp
    obtain ⟨hjl, -⟩ := List.getElem?_eq_some_iff.1 hx
    rw [List.length_append, List.length_singleton] at hjl
    have hdef : heapPar j = (j - 1) / 2 := rfl
    omega

/-- `heappop` keeps the heap invariant. -/
theorem heappopP_heapProp
    (hasymm : ∀ a b, ltb a b = true → ltb b a = false)
    (hnegtrans : ∀ a b c, ltb a b = false → ltb b c = false → ltb a c = false)
    (h : List α) (hH : heapProp ltb h) :
    ∀ x h2, heappopP ltb h = some (x, h2) → heapProp ltb h2 := by
  intro x h2 hpop
  unfold heappopP at hpop
  cases hl : h.getLast? with
  | none =>
    rw [hl] at hpop
    exact Option.noConfusion hpop
  | some lastelt =>
    rw [hl] at hpop
    obtain ⟨ys, rfl⟩ := List.getLast?_eq_some_iff.1 hl
    rw [List.dropLast_concat] at hpop
    cases ys with
    | nil =>
      simp only [Option.some.injEq, Prod.mk.injEq] at hpop
      obtain ⟨rfl, rfl⟩ := hpop
      intro j x p hj hx hp
      simp at hx
    | cons r0 rest =>
      simp only [Option.some.injEq, Prod.mk.injEq] at hpop
      obtain ⟨rfl, rfl⟩ := hpop
      apply siftupP_heapProp hasymm hnegtrans lastelt (r0 :: rest).length 0 (r0 :: rest)
        (by omega) (by simp)
      · intro j x p hj hjne hx hp
        obtain ⟨hjl, -⟩ := List.getElem?_eq_some_iff.1 hx
        obtain ⟨hpl, -⟩ := List.getElem?_eq_some_iff.1 hp
        refine hH j x p hj ?_ ?_
        · rw [List.getElem?_append_left hjl]
          exact hx
        · rw [List.getElem?_append_left hpl]
          exact hp
      · intro h0
        exact absurd h0 (by omega)

/-- Draining the whole heap yields its content in ascending order. -/
theorem drainP_spec
    (hasymm : ∀ a b, ltb a b = true → ltb b a = false)
    (hnegtrans : ∀ a b c, ltb a b = false → ltb b c = false → ltb a c = false) :
    ∀ (n : Nat) (h : List α), h.length = n → heapProp ltb h →
      ((drainP ltb n h : List α) : Multiset α) = (h : Multiset α) ∧
      (drainP ltb n h).Pairwise (fun a b => ltb b a = false) := by
  intro n
  induction n using Nat.strong_induction_on with
  | _ n ih =>
    intro h hlen hH
    cases n with
    | zero =>
      have : h = [] := List.length_eq_zero.1 hlen
      subst this
      exact ⟨rfl, List.Pairwise.nil⟩
    | succ n =>
      have hne : h ≠ [] := by
        intro he
        rw [he] at hlen
        simp at hlen
      rcases hp : heappopP ltb h with - | ⟨x, h2⟩
      · exact absurd ((heappopP_none ltb h).1 hp) hne
      · obtain ⟨hx0, hcontent⟩ := heappopP_content ltb h x h2 hp
        have hH2 := heappopP_heapProp hasymm hnegtrans h hH x h2 hp
        have hlen2 : h2.length = n := by
          have hcard := congrArg Multiset.card hcontent
          simp only [Multiset.card_cons, Multiset.coe_card] at hcard
          omega
        obtain ⟨hperm2, hsorted2⟩ := ih n (by omega) h2 hlen2 hH2
        have hun : drainP ltb (n + 1) h = x :: drainP ltb n h2 := by
          show (match heappopP ltb h with
            | none => []
            | some (x, h2) => x :: drainP ltb n h2) = _
          rw [hp]
        rw [hun]
        constructor
        · show x ::ₘ ((drainP ltb n h2 : List α) : Multiset α) = _
          rw [hperm2]
          exact hcontent
        · rw [List.pairwise_cons]
          refine ⟨?_, hsorted2⟩
          intro y hy
          have hyh : y ∈ h := by
            have hy2 : y ∈ (h2 : Multiset α) := by
              rw [← hperm2]
              exact hy
            have : y ∈ (h : Multiset α) := by
              rw [← hcontent]
              exact Multiset.mem_cons_of_mem hy2
            exact this
          obtain ⟨j, hj⟩ := List.getElem?_of_mem hyh
          exact heap_root_le hasymm hnegtrans hH hx0 j y hj

/-- Draining `n` items is a prefix of draining everything. -/
theorem drainP_take (ltb : α → α → Bool) :
    ∀ (m : Nat) (h : List α) (n : Nat), h.length = m →
      drainP ltb n h = (drainP ltb m h).take n := by
  intro m
  induction m using Nat.strong_induction_on with
  | _ m ih =>
    intro h n hm
    cases n with
    | zero => simp [drainP]
    | succ n =>
      cases m with
      | zero =>
        have : h = [] := List.length_eq_zero.1 hm
        subst this
        have hpop : heappopP ltb ([] : List α) = none := (heappopP_none ltb []).2 rfl
        show (match heappopP ltb ([] : List α) with
          | none => []
          | some (x, h2) => x :: drainP ltb n h2) = _
        rw [hpop]
        simp [drainP]
      | succ m =>
        have hne : h ≠ [] := by
          intro he
          rw [he] at hm
          simp at hm
        rcases hp : heappopP ltb h with - | ⟨x, h2⟩
        · exact absurd ((heappopP_none ltb h).1 hp) hne
        · obtain ⟨-, hcontent⟩ := heappopP_content ltb h x h2 hp
          have hlen2 : h2.length = m := by
            have hcard := congrArg Multiset.card hcontent
            simp only [Multiset.card_cons, Multiset.coe_card] at hcard
            omega
          have hun : ∀ k, drainP ltb (k + 1) h = x :: drainP ltb k h2 := by
            intro k
            show (match heappopP ltb h with
              | none => []
              | some (x, h2) => x :: drainP ltb k h2) = _
            rw [hp]
          rw [hun n, hun m, List.take_succ_cons, ih m (by omega) h2 n hlen2]

/-- When no comparison of involved elements can raise, the monadic
`_siftdown` computes the pure one. -/
theorem siftdownE_eq (plt : α → α → Except PyErr Bool) (item : α) :
    ∀ (pos : Nat) (h S : List α), lawfulOn plt ltb S → item ∈ S → (∀ a ∈ h, a ∈ S) →
      siftdownE plt item h pos = .ok (siftdownP ltb item h pos) := by
  intro pos
  induction pos using Nat.strong_induction_on with
  | _ pos ih =>
    intro h S hS hitem hsub
    unfold siftdownE siftdownP
    by_cases h0 : pos = 0
    · simp only [dif_pos h0]
    · simp only [dif_neg h0]
      cases hpar : h[heapPar pos]? with
      | none => rfl
      | some parent =>
        have hparmem : parent ∈ S := hsub parent (List.getElem?_mem hpar)
        show (match plt item parent with
          | Except.error e => Except.error e
          | Except.ok true => siftdownE plt item (h.set pos parent) (heapPar pos)
          | Except.ok false => Except.ok (h.set pos item)) =
          Except.ok (if ltb item parent = true then
            siftdownP ltb item (h.set pos parent) (heapPar pos) else h.set pos item)
        rw [hS item parent hitem hparmem]
        cases hltb : ltb item parent
        · rfl
        · exact ih (heapPar pos) (heapPar_lt (Nat.pos_of_ne_zero h0)) (h.set pos parent) S
            hS hitem (fun a ha => (List.mem_or_eq_of_mem_set ha).elim (hsub a)
              (fun he => he ▸ hparmem))

/-- When no comparison of involved elements can raise, the monadic `_siftup`
computes the pure one. -/
theorem siftupE_eq (plt : α → α → Except PyErr Bool) (item : α) :
    ∀ (n pos : Nat) (h S : List α), h.length - pos ≤ n →
      lawfulOn plt ltb S → item ∈ S → (∀ a ∈ h, a ∈ S) →
      siftupE plt item h pos = .ok (siftupP ltb item h pos) := by
  intro n
  induction n with
  | zero =>
    intro pos h S hn hS hitem hsub
    unfold siftupE siftupP
    have hle : h.length ≤ pos := by omega
    rw [dif_neg (by omega), dif_neg (by omega)]
    exact siftdownE_eq plt item pos h S hS hitem hsub
  | succ n ih =>
    intro pos h S hn hS hitem hsub
    unfold siftupE siftupP
    by_cases hc1 : 2 * pos + 1 < h.length
    · simp only [dif_pos hc1]
      have hmem1 : h.get ⟨2 * pos + 1, hc1⟩ ∈ S := hsub _ (List.get_mem h _ hc1)
      have hsubset : ∀ (c : α), c ∈ S → ∀ a ∈ h.set pos c, a ∈ S := fun c hc a ha =>
        (List.mem_or_eq_of_mem_set ha).elim (hsub a) (fun he => he ▸ hc)
      by_cases hc2 : 2 * pos + 2 < h.length
      · simp only [dif_pos hc2]
        have hmem2 : h.get ⟨2 * pos + 2, hc2⟩ ∈ S := hsub _ (List.get_mem h _ hc2)
        rw [hS _ _ hmem1 hmem2]
        cases hltb : ltb (h.get ⟨2 * pos + 1, hc1⟩) (h.get ⟨2 * pos + 2, hc2⟩)
        · exact ih (2 * pos + 2) (h.set pos (h.get ⟨2 * pos + 2, hc2⟩)) S
            (by simp only [List.length_set]; omega) hS hitem (hsubset _ hmem2)
        · exact ih (2 * pos + 1) (h.set pos (h.get ⟨2 * pos + 1, hc1⟩)) S
            (by simp only [List.length_set]; omega) hS hitem (hsubset _ hmem1)
      · simp only [dif_neg hc2]
        exact ih (2 * pos + 1) (h.set pos (h.get ⟨2 * pos + 1, hc1⟩)) S
          (by simp only [List.length_set]; omega) hS hitem (hsubset _ hmem1)
    · simp only [dif_neg hc1]
      exact siftdownE_eq plt item pos h S hS hitem hsub

/-- `put` agrees with the pure push. -/
theorem heappushE_eq (plt : α → α → Except PyErr Bool) (h S : List α) (item : α)
    (hS : lawfulOn plt ltb S) (hitem : item ∈ S) (hsub : ∀ a ∈ h, a ∈ S) :
    heappushE plt h item = .ok (heappushP ltb h item) := by
  unfold heappushE heappushP
  refine siftdownE_eq plt item h.length (h ++ [item]) S hS hitem ?_
  intro a ha
  rcases List.mem_append.1 ha with ha | ha
  · exact hsub a ha
  · rw [List.mem_singleton.1 ha]
    exact hitem

/-- `get` agrees with the pure pop. -/
theorem heappopE_eq (plt : α → α → Except PyErr Bool) (h S : List α)
    (hS : lawfulOn plt ltb S) (hsub : ∀ a ∈ h, a ∈ S) :
    heappopE plt h = .ok (heappopP ltb h) := by
  unfold heappopE heappopP
  cases hl : h.getLast? with
  | none => rfl
  | some lastelt =>
    have hlmem : lastelt ∈ S := hsub lastelt (List.mem_of_getLast?_eq_some hl)
    show (match h.dropLast with
      | [] => Except.ok (some (lastelt, []))
      | r0 :: rest =>
        match siftupE plt lastelt (r0 :: rest) 0 with
        | Except.error e => Except.error e
        | Except.ok h2 => Except.ok (some (r0, h2))) =
      Except.ok (match h.dropLast with
        | [] => some (lastelt, [])
        | r0 :: rest => some (r0, siftupP ltb lastelt (r0 :: rest) 0))
    cases hd : h.dropLast with
    | nil => rfl
    | cons r0 rest =>
      have hdsub : ∀ a ∈ r0 :: rest, a ∈ S := by
        intro a ha
        rw [← hd] at ha
        exact hsub a (List.dropLast_subset h ha)
      show (match siftupE plt lastelt (r0 :: rest) 0 with
        | Except.error e => Except.error e
        | Except.ok h2 => Except.ok (some (r0, h2))) = _
      rw [siftupE_eq plt lastelt (r0 :: rest).length 0 (r0 :: rest) S (by omega)
        hS hlmem hdsub]

/-- The pop loop agrees with the pure drain. -/
theorem drainE_eq (plt : α → α → Except PyErr Bool) :
    ∀ (n : Nat) (h S : List α), lawfulOn plt ltb S → (∀ a ∈ h, a ∈ S) →
      drainE plt n h = .ok (drainP ltb n h) := by
  intro n
  induction n with
  | zero => intro h S hS hsub; rfl
  | succ n ih =>
    intro h S hS hsub
    show (match heappopE plt h with
      | Except.error e => Except.error e
      | Except.ok none => Except.ok []
      | Except.ok (some (x, h2)) =>
        match drainE plt n h2 with
        | Except.error e => Except.error e
        | Except.ok rest => Except.ok (x :: rest)) =
      Except.ok (drainP ltb (n + 1) h)
    rw [heappopE_eq plt h S hS hsub]
    cases hp : heappopP ltb h with
    | none =>
      show Except.ok [] = .ok (match heappopP ltb h with
        | none => []
        | some (x, h2) => x :: drainP ltb n h2)
      rw [hp]
    | some xh =>
      obtain ⟨x, h2⟩ := xh
      obtain ⟨-, hcontent⟩ := heappopP_content ltb h x h2 hp
      have hsub2 : ∀ a ∈ h2, a ∈ S := by
        intro a ha
        apply hsub
        have : a ∈ (h : Multiset α) := by
          rw [← hcontent]
          exact Multiset.mem_cons_of_mem ha
        exact this
      show (match drainE plt n h2 with
        | Except.error e => Except.error e
        | Except.ok rest => Except.ok (x :: rest)) = Except.ok (drainP ltb (n + 1) h)
      rw [ih h2 S hS hsub2]
      show Except.ok (x :: drainP ltb n h2) = .ok (match heappopP ltb h with
        | none => []
        | some (x, h2) => x :: drainP ltb n h2)
      rw [hp]

end HeapLemmas

/-- The key order on entries is asymmetric. -/
theorem keyLT_asymm : ∀ a b : Entry, keyLT a b = true → keyLT b a = false := by
  intro a b h
  simp only [keyLT, decide_eq_true_eq] at h
  simp only [keyLT, decide_eq_false_iff_not]
  exact asymm h

/-- The complement of the key order is transitive. -/
theorem keyLT_negtrans :
    ∀ a b c : Entry, keyLT a b = false → keyLT b c = false → keyLT a c = false := by
  intro a b c h1 h2
  simp only [keyLT, decide_eq_false_iff_not, not_lt] at h1 h2 ⊢
  exact le_trans h2 h1

/-- On entries with pairwise-distinct keys, the Python tuple comparison never
raises and computes the key order. -/
theorem entryLT_lawful (S : List Entry) (hnd : (S.map Prod.fst).Nodup) :
    lawfulOn entryLT keyLT S := by
  intro a b ha hb
  by_cases hab : a = b
  · subst hab
    simp [entryLT, keyLT]
  · have hkey : a.1 ≠ b.1 := by
      intro he
      exact hab (List.inj_on_of_nodup_map hnd ha hb he)
    simp [entryLT, hkey, keyLT]

/-- Two ascending lists with the same entries and duplicate-free keys are
equal. -/
theorem sorted_nodupkeys_unique :
    ∀ (l₁ l₂ : List Entry), l₁.Perm l₂ →
      l₁.Pairwise (fun a b => keyLT b a = false) →
      l₂.Pairwise (fun a b => keyLT b a = false) →
      (l₁.map Prod.fst).Nodup → l₁ = l₂ := by
  intro l₁
  induction l₁ with
  | nil =>
    intro l₂ hperm _ _ _
    exact hperm.nil_eq
  | cons a t₁ ih =>
    intro l₂ hperm hs₁ hs₂ hnd
    cases l₂ with
    | nil => exact absurd hperm.symm.nil_eq (by simp)
    | cons b t₂ =>
      obtain ⟨hs₁h, hs₁t⟩ := List.pairwise_cons.1 hs₁
      obtain ⟨hs₂h, hs₂t⟩ := List.pairwise_cons.1 hs₂
      obtain ⟨hnda, hndt⟩ := List.nodup_cons.1 hnd
      have hab : a = b := by
        by_contra hne
        have hat₂ : a ∈ t₂ := by
          rcases List.mem_cons.1 (hperm.subset (List.mem_cons_self a t₁)) with h | h
          · exact absurd h hne
          · exact h
        have hbt₁ : b ∈ t₁ := by
          rcases List.mem_cons.1 (hperm.symm.subset (List.mem_cons_self b t₂)) with h | h
          · exact absurd h.symm hne
          · exact h
        have h1 : keyLT b a = false := hs₁h b hbt₁
        have h2 : keyLT a b = false := hs₂h a hat₂
        simp only [keyLT, decide_eq_false_iff_not, not_lt] at h1 h2
        have hkeys : a.1 = b.1 := le_antisymm h1 h2
        exact hnda (hkeys ▸ List.mem_map_of_mem Prod.fst hbt₁)
      subst hab
      rw [ih t₂ hperm.cons_inv hs₁t hs₂t hndt]

/-- Running all the `put` calls of `count_query` builds a well-formed heap
holding exactly the candidates' entries. -/
theorem count_pushes (dist : Loc → Loc → ℚ) (loc : Loc) (S : List Entry)
    (hS : lawfulOn entryLT keyLT S) :
    ∀ (cs : List Camera) (h : List Entry),
      (∀ c ∈ cs, (dist loc c.lat_lng, c) ∈ S) → (∀ a ∈ h, a ∈ S) → heapProp keyLT h →
      ∃ H, cs.foldlM (fun acc c => heappushE entryLT acc (dist loc c.lat_lng, c)) h =
          .ok H ∧
        heapProp keyLT H ∧
        ((H : List Entry) : Multiset Entry) =
          (h : Multiset Entry) +
            ((cs.map (fun c => (dist loc c.lat_lng, c)) : List Entry) : Multiset Entry) ∧
        (∀ a ∈ H, a ∈ S) := by
  intro cs
  induction cs with
  | nil =>
    intro h hcs hsub hH
    exact ⟨h, rfl, hH, by simp, hsub⟩
  | cons c cs ih =>
    intro h hcs hsub hH
    have hcmem : (dist loc c.lat_lng, c) ∈ S := hcs c (List.mem_cons_self c cs)
    have hpush := @heappushE_eq Entry keyLT entryLT h S (dist loc c.lat_lng, c)
      hS hcmem hsub
    have hpushc := heappushP_content keyLT (dist loc c.lat_lng, c) h
    have hpushsub : ∀ a ∈ heappushP keyLT h (dist loc c.lat_lng, c), a ∈ S := by
      intro a ha
      have : a ∈ ((heappushP keyLT h (dist loc c.lat_lng, c) : List Entry) : Multiset Entry) :=
        ha
      rw [hpushc] at this
      rcases Multiset.mem_add.1 this with h1 | h1
      · exact hsub a h1
      · rw [Multiset.mem_singleton.1 h1]
        exact hcmem
    have hpushH := heappushP_heapProp keyLT_asymm keyLT_negtrans h (dist loc c.lat_lng, c) hH
    obtain ⟨H, hfold, hHp, hHc, hHs⟩ := ih (heappushP keyLT h (dist loc c.lat_lng, c))
      (fun d hd => hcs d (List.mem_cons_of_mem _ hd)) hpushsub hpushH
    refine ⟨H, ?_, hHp, ?_, hHs⟩
    · rw [List.foldlM_cons, hpush]
      exact hfold
    · rw [hHc, hpushc]
      show _ = (h : Multiset Entry) +
        (((dist loc c.lat_lng, c) :: cs.map (fun c => (dist loc c.lat_lng, c)) :
          List Entry) : Multiset Entry)
      simp only [← Multiset.cons_coe, ← Multiset.singleton_add]
      abel

/-- The reference distance sort is a permutation of the candidates, and its
entry list is ascending in the key order. -/
theorem sortByDist_spec (dist : Loc → Loc → ℚ) (loc : Loc) (cams : List Camera) :
    (sortByDist dist loc cams).Perm cams ∧
    ((sortByDist dist loc cams).map (fun c => (dist loc c.lat_lng, c))).Pairwise
      (fun a b => keyLT b a = false) := by
  refine ⟨List.perm_insertionSort _ cams, ?_⟩
  have hs : (sortByDist dist loc cams).Pairwise
      (fun a b => dist loc a.lat_lng ≤ dist loc b.lat_lng) := by
    letI : IsTotal Camera (fun a b => dist loc a.lat_lng ≤ dist loc b.lat_lng) :=
      ⟨fun a b => le_total _ _⟩
    letI : IsTrans Camera (fun a b => dist loc a.lat_lng ≤ dist loc b.lat_lng) :=
      ⟨fun a b c h1 h2 => le_trans h1 h2⟩
    exact List.sorted_insertionSort _ cams
  refine List.Pairwise.map _ ?_ hs
  intro a b hab
  simp only [keyLT, decide_eq_false_iff_not, not_lt]
  exact hab

/-- C2 (amended): on a candidate set whose distances to the query point are
pairwise distinct (so no tuple comparison ever falls through to the
unorderable `Camera` objects), count-mode query returns the `count`
candidates closest to the query point in ascending order of distance — the
`count`-prefix of the distance sort; count 0 gives the empty sequence, and a
count at least the candidate count gives the whole distance sort with no
error.  (The amendment adds the distinct-distance hypothesis: on ties the
query raises `TypeError` instead, see `c2_count_query_cex` and C3.) -/
theorem c2_count_query_kclosest (dist : Loc → Loc → ℚ) (cams : List Camera)
    (loc : Loc) (count : Int)
    (hnd : (cams.map (fun c => dist loc c.lat_lng)).Nodup) (hcount : 0 ≤ count) :
    count_query dist cams loc count =
      .ok ((sortByDist dist loc cams).take count.toNat) ∧
    (count = 0 → count_query dist cams loc count = .ok []) ∧
    ((cams.length : Int) ≤ count →
      count_query dist cams loc count = .ok (sortByDist dist loc cams)) := by
  have hndE : ((cams.map (fun c => (dist loc c.lat_lng, c))).map Prod.fst).Nodup := by
    rw [List.map_map]
    exact hnd
  have hlaw := entryLT_lawful _ hndE
  obtain ⟨H, hfold, hHp, hHc, hHs⟩ := count_pushes dist loc _ hlaw cams []
    (fun c hc => List.mem_map_of_mem _ hc) (by simp) (fun j x p hj hx hp => by simp at hx)
  have hmain : count_query dist cams loc count =
      .ok ((sortByDist dist loc cams).take count.toNat) := by
    unfold count_query
    rw [hfold]
    show (match drainE entryLT count.toNat H with
      | Except.error e => Except.error e
      | Except.ok entries => Except.ok (entries.map Prod.snd)) = _
    rw [@drainE_eq Entry keyLT entryLT count.toNat H _ hlaw hHs]
    show Except.ok ((drainP keyLT count.toNat H).map Prod.snd) = _
    rw [drainP_take keyLT H.length H count.toNat rfl]
    obtain ⟨hdc, hds⟩ := drainP_spec keyLT_asymm keyLT_negtrans H.length H rfl hHp
    have hDperm : (drainP keyLT H.length H).Perm
        (cams.map (fun c => (dist loc c.lat_lng, c))) := by
      apply Multiset.coe_eq_coe.1
      rw [hdc, hHc]
      simp
    obtain ⟨hsperm, hssorted⟩ := sortByDist_spec dist loc cams
    have hPerm2 : (drainP keyLT H.length H).Perm
        ((sortByDist dist loc cams).map (fun c => (dist loc c.lat_lng, c))) :=
      hDperm.trans ((hsperm.map _).symm)
    have hDkeys : ((drainP keyLT H.length H).map Prod.fst).Nodup :=
      ((hDperm.map Prod.fst).nodup_iff).2 hndE
    have hEq := sorted_nodupkeys_unique _ _ hPerm2 hds hssorted hDkeys
    rw [hEq, ← List.map_take, List.map_map]
    congr 1
    exact List.map_id _
  refine ⟨hmain, fun h0 => ?_, fun hge => ?_⟩
  · subst h0
    rw [hmain]
    rfl
  · rw [hmain]
    congr 1
    apply List.take_of_length_le
    have hlen : (sortByDist dist loc cams).length = cams.length :=
      (sortByDist_spec dist loc cams).1.length_eq
    omega

/-- Counterexample to C2 as stated: two distinct cameras at the same point,
hence at equal distance from the query point.  Already the second `put`
compares the two `(distance, camera)` tuples, falls through to
`camera < camera`, and raises `TypeError`: no result sequence is returned. -/
theorem c2_count_query_cex :
    count_query sqDist [camF, camG] (5, 5) 1 = .error .typeError := by
  have hk : sqDist (5, 5) (Camera.lat_lng camF) = 8 := by
    norm_num [sqDist, camF, Camera.lat_lng]
  have hk2 : sqDist (5, 5) (Camera.lat_lng camG) = 8 := by
    norm_num [sqDist, camG, Camera.lat_lng]
  have hcam : camG ≠ camF := by decide
  have h1 : heappushE entryLT [] (sqDist (5, 5) camF.lat_lng, camF) =
      .ok [(sqDist (5, 5) camF.lat_lng, camF)] := by
    simp [heappushE, siftdownE]
  have h2 : heappushE entryLT [(sqDist (5, 5) camF.lat_lng, camF)]
      (sqDist (5, 5) camG.lat_lng, camG) = .error .typeError := by
    simp [heappushE, siftdownE, heapPar, entryLT, hk, hk2, hcam]
  have hfold : List.foldlM (fun h c => heappushE entryLT h (sqDist (5, 5) c.lat_lng, c))
      [] [camF, camG] = .error .typeError := by
    rw [List.foldlM_cons, h1]
    show List.foldlM (fun h c => heappushE entryLT h (sqDist (5, 5) c.lat_lng, c))
      [(sqDist (5, 5) camF.lat_lng, camF)] [camG] = .error .typeError
    rw [List.foldlM_cons, h2]
    rfl
  unfold count_query
  rw [hfold]

/-- C3: the code contradicts the claim — on a candidate set with two cameras
at exactly equal distance, count-mode query does not complete with a stable
input-order tie-break: the priority queue's tuple comparison falls through
to the unorderable `Camera` objects and raises `TypeError` (here evaluated
at two distinct cameras at the same point, count 2). -/
theorem c3_count_query_tie_raises :
    count_query sqDist [camD, camE] (5, 5) 2 = .error .typeError := by
  have hk : sqDist (5, 5) (Camera.lat_lng camD) = 32 := by
    norm_num [sqDist, camD, Camera.lat_lng]
  have hk2 : sqDist (5, 5) (Camera.lat_lng camE) = 32 := by
    norm_num [sqDist, camE, Camera.lat_lng]
  have hcam : camE ≠ camD := by decide
  have h1 : heappushE entryLT [] (sqDist (5, 5) camD.lat_lng, camD) =
      .ok [(sqDist (5, 5) camD.lat_lng, camD)] := by
    simp [heappushE, siftdownE]
  have h2 : heappushE entryLT [(sqDist (5, 5) camD.lat_lng, camD)]
      (sqDist (5, 5) camE.lat_lng, camE) = .error .typeError := by
    simp [heappushE, siftdownE, heapPar, entryLT, hk, hk2, hcam]
  have hfold : List.foldlM (fun h c => heappushE entryLT h (sqDist (5, 5) c.lat_lng, c))
      [] [camD, camE] = .error .typeError := by
    rw [List.foldlM_cons, h1]
    show List.foldlM (fun h c => heappushE entryLT h (sqDist (5, 5) c.lat_lng, c))
      [(sqDist (5, 5) camD.lat_lng, camD)] [camE] = .error .typeError
    rw [List.foldlM_cons, h2]
    rfl
  unfold count_query
  rw [hfold]

/-- Witness for C2: two cameras at distinct distances, count 2 (all of
them), returned ascending. -/
theorem c2_count_query_kclosest_w :
    ([camA, camC].map (fun c => sqDist (5, 5) c.lat_lng)).Nodup ∧ (0 : Int) ≤ 2 ∧
    count_query sqDist [camA, camC] (5, 5) 2 =
      .ok ((sortByDist sqDist (5, 5) [camA, camC]).take (2 : Int).toNat) :=
  ⟨by norm_num [camA, camC, Camera.lat_lng, sqDist], by norm_num,
   (c2_count_query_kclosest sqDist [camA, camC] (5, 5) 2
      (by norm_num [camA, camC, Camera.lat_lng, sqDist]) (by norm_num)).1⟩

/-- C7 (amended): a count-mode query with a negative count does not fail
with any `InvalidCount`-style error: `range(count)` is simply empty, and
(when the distances are pairwise distinct, so the puts do not raise) the
query returns the empty sequence. -/
theorem c7_negative_count_empty (dist : Loc → Loc → ℚ) (cams : List Camera) (loc : Loc)
    (count : Int) (hnd : (cams.map (fun c => dist loc c.lat_lng)).Nodup)
    (hneg : count < 0) :
    count_query dist cams loc count = .ok [] := by
  have hndE : ((cams.map (fun c => (dist loc c.lat_lng, c))).map Prod.fst).Nodup := by
    rw [List.map_map]
    exact hnd
  have hlaw := entryLT_lawful _ hndE
  obtain ⟨H, hfold, hHp, hHc, hHs⟩ := count_pushes dist loc _ hlaw cams []
    (fun c hc => List.mem_map_of_mem _ hc) (by simp) (fun j x p hj hx hp => by simp at hx)
  unfold count_query
  rw [hfold]
  have h0 : count.toNat = 0 := by omega
  show (match drainE entryLT count.toNat H with
    | Except.error e => Except.error e
    | Except.ok entries => Except.ok (entries.map Prod.snd)) = Except.ok []
  rw [h0]
  rfl

/-- Counterexample to C7 as stated: with count `-1` the query returns the
empty list — it does not fail with `InvalidCount` (no such check exists in
the code). -/
theorem c7_negative_count_cex :
    count_query sqDist [camA] (5, 5) (-1) = .ok [] := by
  have h1 : heappushE entryLT [] (sqDist (5, 5) camA.lat_lng, camA) =
      .ok [(sqDist (5, 5) camA.lat_lng, camA)] := by
    simp [heappushE, siftdownE]
  have hfold : List.foldlM (fun h c => heappushE entryLT h (sqDist (5, 5) c.lat_lng, c))
      [] [camA] = .ok [(sqDist (5, 5) camA.lat_lng, camA)] := by
    rw [List.foldlM_cons, h1]
    rfl
  unfold count_query
  rw [hfold]
  rfl

/-- Witness for C7 (amended): count `-2` on a singleton candidate set. -/
theorem c7_negative_count_empty_w :
    ([camB].map (fun c => sqDist (5, 5) c.lat_lng)).Nodup ∧ (-2 : Int) < 0 ∧
    count_query sqDist [camB] (5, 5) (-2) = .ok [] :=
  ⟨by simp, by norm_num,
   c7_negative_count_empty sqDist [camB] (5, 5) (-2) (by simp) (by norm_num)⟩

/-- C10: the dispatch of `CameraQuery.get` tests the query type against the
exact string `"radius"`; every other string — not just `"count"` — selects
count mode with the value converted by `int()`, and `"radius"` alone selects
radius mode with the value converted by `float()`. -/
theorem c10_query_type_dispatch (dist : Loc → Loc → ℚ) (db : List Camera)
    (qp : List (String × String)) (loc : Loc) (query_type value : String)
    (hqt : query_type ≠ "radius") :
    cameraQuery_get dist db qp loc query_type value =
      cameraQuery_get dist db qp loc "count" value ∧
    (∀ filtered, filter_cameras db qp = .ok filtered →
      cameraQuery_get dist db qp loc query_type value =
        (match pyInt value with
          | some n => count_query dist filtered loc n
          | none => .error .invalidQueryValue)) ∧
    (∀ filtered r, filter_cameras db qp = .ok filtered → pyFloat value = some r →
      cameraQuery_get dist db qp loc "radius" value =
        .ok (radius_query dist filtered loc r)) := by
  refine ⟨?_, ?_, ?_⟩
  · unfold cameraQuery_get
    cases filter_cameras db qp with
    | error e => rfl
    | ok f =>
      show (if query_type = "radius" then _ else _) =
        (if "count" = "radius" then _ else _)
      rw [if_neg hqt, if_neg (by decide : ¬("count" = "radius"))]
  · intro filtered hf
    unfold cameraQuery_get
    rw [hf]
    show (if query_type = "radius" then _ else _) = _
    rw [if_neg hqt]
  · intro filtered r hf hr
    unfold cameraQuery_get
    rw [hf]
    show (if "radius" = "radius" then _ else _) = _
    rw [if_pos rfl, hr]

/-- Witness for C10: the unknown query type `nearest` behaves exactly like
`count`. -/
theorem c10_query_type_dispatch_w :
    cameraQuery_get sqDist [camA] [] (5, 5) "nearest" "3" =
      cameraQuery_get sqDist [camA] [] (5, 5) "count" "3" ∧
    cameraQuery_get sqDist [camA] [] (5, 5) "nearest" "3" =
      (match pyInt "3" with
        | some n => count_query sqDist [camA] (5, 5) n
        | none => .error .invalidQueryValue) :=
  ⟨(c10_query_type_dispatch sqDist [camA] [] (5, 5) "nearest" "3" (by decide)).1,
   (c10_query_type_dispatch sqDist [camA] [] (5, 5) "nearest" "3" (by decide)).2.1
     [camA] rfl⟩

end CAM2API
